import Mathlib

/-!
A verification development for `tasker.c`.

`tasker.c` is a non-preemptive task scheduler: a table of periodic tasks, a
tick routine called from a timer interrupt (`tsk_task_time_manager`), a
dispatch routine called from the main loop (`tsk_task_runner`), and getters
and setters that look a task up by its function pointer.

The embedding follows the C source function by function.

* `task_array` is a C array of `NUMBER_OF_TASKS` slots; it is a `List Task`
  whose length is `NUMBER_OF_TASKS`.  An access at an index outside the array
  is undefined behaviour in C; here it is the result
  `Except.error (Fault.out_of_bounds index)`.
* `numberof_tasks` and every `task_index` are `uint8_t`: natural numbers below
  256, incremented modulo 256.
* `TaskTime` (declared in `tasker.h`) is taken to be an unsigned integer type
  of `w` bits, `w` a parameter: the increment of a counter is modulo `2 ^ w`.
* `TaskFunctionPtr` values are compared and called, nothing else: they are
  natural numbers (addresses).  What a call `run()` does to the table is a
  parameter `body` of `tsk_task_runner`, which also records the calls made.
-/

namespace Scheduler

/-- The type `TaskFunctionPtr` of `tasker.h`: the address of a task function. -/
abbrev TaskFunctionPtr := Nat

/-- The type `TaskTime` of `tasker.h`: an unsigned integer, kept as a natural
number; `counter++` reduces modulo `2 ^ w`. -/
abbrev TaskTime := Nat

/-- The enumeration `TaskState` of `tasker.h`. -/
inductive TaskState where
  | RUNNABLE
  | READY
  | PAUSED
  deriving DecidableEq, Repr

open TaskState

/-- The record `Task` of `tasker.h`, with the four fields `tasker.c` uses;
`period` and `counter` are of type `TaskTime`. -/
structure Task where
  run : TaskFunctionPtr
  period : Nat
  counter : Nat
  state : TaskState
  deriving DecidableEq, Repr

/-- What stops a run of the code: an access to `task_array` at an index outside
its `NUMBER_OF_TASKS` slots (undefined behaviour in C), or a loop of the model
that used up its iterations (no `uint8_t` loop does). -/
inductive Fault where
  | out_of_bounds (index : Nat)
  | out_of_fuel
  deriving DecidableEq, Repr

deriving instance DecidableEq for Except

/-- The two file-scope variables of `tasker.c`: the array `task_array` (its
length is `NUMBER_OF_TASKS`) and the `uint8_t` count `numberof_tasks`. -/
structure Tasker where
  task_array : List Task
  numberof_tasks : Nat
  numberof_tasks_lt : numberof_tasks < 256
  deriving DecidableEq, Repr

/-- The constant `NUMBER_OF_TASKS` of `config.h`: the number of slots of
`task_array`. -/
def NUMBER_OF_TASKS (s : Tasker) : Nat := s.task_array.length

/-- Read of `task_array[task_index]`. -/
def load (s : Tasker) (task_index : Nat) : Except Fault Task :=
  match s.task_array[task_index]? with
  | some t => .ok t
  | none => .error (.out_of_bounds task_index)

/-- Assignment to fields of `task_array[task_index]`: `f` gives the new record
from the old one. -/
def store (s : Tasker) (task_index : Nat) (f : Task → Task) : Except Fault Tasker :=
  match s.task_array[task_index]? with
  | some t => .ok { s with task_array := s.task_array.set task_index (f t) }
  | none => .error (.out_of_bounds task_index)

/-- The function `tsk_task_create`: four stores into the slot at index
`numberof_tasks`, then `numberof_tasks++` on a `uint8_t`.  There is no test of
`numberof_tasks` against `NUMBER_OF_TASKS`. -/
def tsk_task_create (s : Tasker) (function : TaskFunctionPtr) (state : TaskState)
    (period : TaskTime) : Except Fault Tasker := do
  let s1 ← store s s.numberof_tasks (fun t => { t with run := function })
  let s2 ← store s1 s1.numberof_tasks (fun t => { t with period := period })
  let s3 ← store s2 s2.numberof_tasks (fun t => { t with state := state })
  let s4 ← store s3 s3.numberof_tasks (fun t => { t with counter := 1 })
  pure { s4 with
    numberof_tasks := (s4.numberof_tasks + 1) % 256
    numberof_tasks_lt := Nat.mod_lt _ (by decide) }

/-- The loop of `get_task_index`, entered at `task_index`.  The first argument
bounds the number of tests of the loop condition; a `uint8_t` index below
`numberof_tasks` is tested at most 256 times. -/
def get_task_index_loop (s : Tasker) (task : TaskFunctionPtr) :
    Nat → Nat → Except Fault Nat
  | 0, _ => .error .out_of_fuel
  | fuel + 1, task_index =>
    if task_index < s.numberof_tasks then
      match load s task_index with
      | .error e => .error e
      | .ok t =>
        if t.run = task then .ok task_index
        else get_task_index_loop s task fuel ((task_index + 1) % 256)
    else .ok task_index

/-- The function `get_task_index`: the index of the first registered record
whose `run` is `task`, and `numberof_tasks` when the loop finds none. -/
def get_task_index (s : Tasker) (task : TaskFunctionPtr) : Except Fault Nat :=
  get_task_index_loop s task 256 0

/-- The function `check_task_counter_and_handle_state`. -/
def check_task_counter_and_handle_state (w : Nat) (s : Tasker) (task_index : Nat) :
    Except Fault Tasker := do
  let t ← load s task_index
  if t.counter ≥ t.period then
    let s1 ← store s task_index (fun t => { t with counter := 1 })
    store s1 task_index (fun t => { t with state := READY })
  else
    store s task_index (fun t => { t with counter := (t.counter + 1) % 2 ^ w })

/-- The loop of `tsk_task_time_manager`, entered at `task_index`. -/
def tsk_task_time_manager_loop (w : Nat) : Nat → Nat → Tasker → Except Fault Tasker
  | 0, _, _ => .error .out_of_fuel
  | fuel + 1, task_index, s =>
    if task_index < s.numberof_tasks then
      match load s task_index with
      | .error e => .error e
      | .ok t =>
        if t.state ≠ PAUSED then
          match check_task_counter_and_handle_state w s task_index with
          | .error e => .error e
          | .ok s1 => tsk_task_time_manager_loop w fuel ((task_index + 1) % 256) s1
        else tsk_task_time_manager_loop w fuel ((task_index + 1) % 256) s
    else .ok s

/-- The function `tsk_task_time_manager`: one timer tick. -/
def tsk_task_time_manager (w : Nat) (s : Tasker) : Except Fault Tasker :=
  tsk_task_time_manager_loop w 256 0 s

/-- The loop of `tsk_task_runner`, entered at `task_index`.  A call `run()` of
the function `f` turns the variables `s` into `body f s`; the result holds the
variables at the end and the functions called, in the order of the calls. -/
def tsk_task_runner_loop (body : TaskFunctionPtr → Tasker → Except Fault Tasker) :
    Nat → Nat → Tasker → Except Fault (Tasker × List TaskFunctionPtr)
  | 0, _, _ => .error .out_of_fuel
  | fuel + 1, task_index, s =>
    if task_index < s.numberof_tasks then
      match load s task_index with
      | .error e => .error e
      | .ok t =>
        if t.state = READY then
          match store s task_index (fun t => { t with state := RUNNABLE }) with
          | .error e => .error e
          | .ok s1 =>
            match load s1 task_index with
            | .error e => .error e
            | .ok t1 =>
              match body t1.run s1 with
              | .error e => .error e
              | .ok s2 =>
                match tsk_task_runner_loop body fuel ((task_index + 1) % 256) s2 with
                | .error e => .error e
                | .ok (s3, calls) => .ok (s3, t1.run :: calls)
        else tsk_task_runner_loop body fuel ((task_index + 1) % 256) s
    else .ok (s, [])

/-- The function `tsk_task_runner`: one pass of the main loop. -/
def tsk_task_runner (body : TaskFunctionPtr → Tasker → Except Fault Tasker)
    (s : Tasker) : Except Fault (Tasker × List TaskFunctionPtr) :=
  tsk_task_runner_loop body 256 0 s

/-- The function `tsk_get_task_state`. -/
def tsk_get_task_state (s : Tasker) (task : TaskFunctionPtr) : Except Fault TaskState := do
  let task_index ← get_task_index s task
  let t ← load s task_index
  pure t.state

/-- The function `tsk_get_task_period`. -/
def tsk_get_task_period (s : Tasker) (task : TaskFunctionPtr) : Except Fault TaskTime := do
  let task_index ← get_task_index s task
  let t ← load s task_index
  pure t.period

/-- The function `tsk_get_task_counter`. -/
def tsk_get_task_counter (s : Tasker) (task : TaskFunctionPtr) : Except Fault TaskTime := do
  let task_index ← get_task_index s task
  let t ← load s task_index
  pure t.counter

/-- The function `tsk_set_task_state`. -/
def tsk_set_task_state (s : Tasker) (task : TaskFunctionPtr) (new_state : TaskState) :
    Except Fault Tasker := do
  let task_index ← get_task_index s task
  let s1 ← store s task_index (fun t => { t with state := new_state })
  if new_state = PAUSED then
    store s1 task_index (fun t => { t with counter := 1 })
  else
    pure s1

/-- The function `tsk_set_task_period`. -/
def tsk_set_task_period (s : Tasker) (task : TaskFunctionPtr) (new_period : TaskTime) :
    Except Fault Tasker := do
  let task_index ← get_task_index s task
  store s task_index (fun t => { t with period := new_period })

/-- The function `tsk_set_task_counter`. -/
def tsk_set_task_counter (s : Tasker) (task : TaskFunctionPtr) (new_counter : TaskTime) :
    Except Fault Tasker := do
  let task_index ← get_task_index s task
  store s task_index (fun t => { t with counter := new_counter })

/-- A task body that leaves the table as it is. -/
def quiet_body : TaskFunctionPtr → Tasker → Except Fault Tasker :=
  fun _ s => .ok s

/-- Consecutive calls of `tsk_task_time_manager`, `n` of them. -/
def ticks (w : Nat) : Nat → Tasker → Except Fault Tasker
  | 0, s => .ok s
  | n + 1, s =>
    match tsk_task_time_manager w s with
    | .error e => .error e
    | .ok s1 => ticks w n s1

/-- The registered records, in index order: the first `numberof_tasks` slots
of `task_array`. -/
def registered (s : Tasker) : List Task := s.task_array.take s.numberof_tasks

/-- The effect of one tick on one record, as `tsk_task_time_manager` and
`check_task_counter_and_handle_state` compute it for a registered slot. -/
def tick_record (w : Nat) (t : Task) : Task :=
  if t.state = PAUSED then t
  else if t.counter ≥ t.period then { t with counter := 1, state := READY }
  else { t with counter := (t.counter + 1) % 2 ^ w }

/-- The effect of one pass of `tsk_task_runner` on one record, when the task
bodies leave the table as it is: a READY record becomes RUNNABLE. -/
def dispatch_record (t : Task) : Task :=
  if t.state = READY then { t with state := RUNNABLE } else t

/-- The functions of the registered records that are READY, in index order. -/
def ready_calls (s : Tasker) : List TaskFunctionPtr :=
  ((registered s).filter (fun t => t.state = READY)).map Task.run

/-- A table of three slots with two registered tasks, the second one READY;
the third slot is free and holds zeros. -/
def sample_table : Tasker :=
  ⟨[⟨1, 3, 1, RUNNABLE⟩, ⟨2, 1, 1, READY⟩, ⟨0, 0, 0, RUNNABLE⟩], 2, by decide⟩

/-- A table of two slots, both registered. -/
def full_table : Tasker :=
  ⟨[⟨1, 3, 2, RUNNABLE⟩, ⟨2, 4, 1, PAUSED⟩], 2, by decide⟩

/-- The predicate of the data model: every registered record has
`1 <= counter <= period`. -/
def counter_in_range (s : Tasker) : Prop :=
  ∀ t ∈ registered s, 1 ≤ t.counter ∧ t.counter ≤ t.period

instance (s : Tasker) : Decidable (counter_in_range s) := by
  unfold counter_in_range
  infer_instance

/-- One step of the automatic lifecycle: a call of `tsk_task_time_manager` or a
call of `tsk_task_runner`. -/
inductive Step where
  | tick
  | run
  deriving DecidableEq, Repr

/-- The steps of a schedule performed in order, the runner with task bodies
that leave the table as it is. -/
def perform (w : Nat) : List Step → Tasker → Except Fault Tasker
  | [], s => .ok s
  | .tick :: rest, s =>
    match tsk_task_time_manager w s with
    | .error e => .error e
    | .ok s1 => perform w rest s1
  | .run :: rest, s =>
    match tsk_task_runner quiet_body s with
    | .error e => .error e
    | .ok (s1, _) => perform w rest s1

/-- Task bodies for a pass of the runner in which the body of the function
`caller` calls `tsk_set_task_state(target, READY)` and every other body leaves
the table as it is. -/
def ready_setting_body (caller target : TaskFunctionPtr) :
    TaskFunctionPtr → Tasker → Except Fault Tasker :=
  fun f s => if f = caller then tsk_set_task_state s target READY else .ok s

/-- A table of three slots, all registered, the second record READY. -/
def trio_table : Tasker :=
  ⟨[⟨1, 3, 1, RUNNABLE⟩, ⟨2, 1, 1, READY⟩, ⟨3, 5, 2, RUNNABLE⟩], 3, by decide⟩

/-- A table of three slots in which the function 1 is registered twice. -/
def twin_table : Tasker :=
  ⟨[⟨1, 3, 1, READY⟩, ⟨1, 2, 2, READY⟩, ⟨0, 0, 0, RUNNABLE⟩], 2, by decide⟩

/-- A table of two slots whose first record has period 0 and counter 5. -/
def zero_period_table : Tasker :=
  ⟨[⟨1, 0, 5, RUNNABLE⟩, ⟨2, 4, 1, RUNNABLE⟩], 2, by decide⟩

/-! ## Loads and stores -/

theorem load_of_getElem? {s : Tasker} {i : Nat} {t : Task}
    (h : s.task_array[i]? = some t) : load s i = .ok t := by
  simp [load, h]

theorem load_of_le {s : Tasker} {i : Nat} (h : s.task_array.length ≤ i) :
    load s i = .error (.out_of_bounds i) := by
  simp [load, List.getElem?_eq_none h]

theorem store_of_getElem? {s : Tasker} {i : Nat} {t : Task} (f : Task → Task)
    (h : s.task_array[i]? = some t) :
    store s i f = .ok { s with task_array := s.task_array.set i (f t) } := by
  simp [store, h]

theorem store_of_le {s : Tasker} {i : Nat} (f : Task → Task)
    (h : s.task_array.length ≤ i) : store s i f = .error (.out_of_bounds i) := by
  simp [store, List.getElem?_eq_none h]

theorem getElem?_set_self_of_some {l : List Task} {i : Nat} {t : Task} (x : Task)
    (h : l[i]? = some t) : (l.set i x)[i]? = some x := by
  have hi : i < l.length := (List.getElem?_eq_some.mp h).1
  simp [List.getElem?_set, hi]

/-! ## One tick -/

theorem check_task_counter_and_handle_state_spec (w : Nat) {s : Tasker} {i : Nat}
    {t : Task} (h : s.task_array[i]? = some t) (hp : t.state ≠ PAUSED) :
    check_task_counter_and_handle_state w s i =
      .ok { s with task_array := s.task_array.set i (tick_record w t) } := by
  unfold check_task_counter_and_handle_state
  simp only [load_of_getElem? h, bind, Except.bind]
  by_cases hc : t.counter ≥ t.period
  · simp only [hc, if_true]
    rw [store_of_getElem? _ h]
    simp only
    rw [store_of_getElem? _ (getElem?_set_self_of_some _ h)]
    simp [tick_record, hp, hc]
  · simp only [hc, if_false]
    rw [store_of_getElem? _ h]
    simp [tick_record, hp, hc]

theorem tsk_task_time_manager_loop_spec (w : Nat) :
    ∀ (fuel i : Nat) (s : Tasker), 256 ≤ fuel + i → i < 256 →
      s.numberof_tasks ≤ s.task_array.length →
      ∃ s', tsk_task_time_manager_loop w fuel i s = .ok s' ∧
        s'.numberof_tasks = s.numberof_tasks ∧
        s'.task_array.length = s.task_array.length ∧
        ∀ j, s'.task_array[j]? =
          if i ≤ j ∧ j < s.numberof_tasks then (s.task_array[j]?).map (tick_record w)
          else s.task_array[j]? := by
  intro fuel
  induction fuel with
  | zero => intro i s h1 h2; omega
  | succ fuel ih =>
    intro i s hfuel hi hcap
    have hn := s.numberof_tasks_lt
    unfold tsk_task_time_manager_loop
    by_cases hlt : i < s.numberof_tasks
    · have hlen : i < s.task_array.length := by omega
      have hget : s.task_array[i]? = some s.task_array[i] := List.getElem?_eq_getElem hlen
      have hmod : (i + 1) % 256 = i + 1 := Nat.mod_eq_of_lt (by omega)
      simp only [hlt, if_true, load_of_getElem? hget, hmod]
      by_cases hp : s.task_array[i].state = PAUSED
      · simp only [hp, ne_eq, not_true_eq_false, if_false]
        obtain ⟨s', hs', hn', hl', hj'⟩ := ih (i + 1) s (by omega) (by omega) hcap
        refine ⟨s', hs', hn', hl', fun j => ?_⟩
        rw [hj' j]
        by_cases hji : j = i
        · subst hji
          simp [hlt, hget, tick_record, hp]
        · have h1 : (i + 1 ≤ j ∧ j < s.numberof_tasks) ↔ (i ≤ j ∧ j < s.numberof_tasks) := by
            omega
          simp only [h1]
      · simp only [ne_eq, hp, not_false_eq_true, if_true,
          check_task_counter_and_handle_state_spec w hget hp]
        obtain ⟨s', hs', hn', hl', hj'⟩ :=
          ih (i + 1) { s with task_array := s.task_array.set i (tick_record w s.task_array[i]) }
            (by omega) (by omega) (by simpa using hcap)
        refine ⟨s', hs', hn', by simpa using hl', fun j => ?_⟩
        rw [hj' j]
        by_cases hji : j = i
        · subst hji
          simp [hlt, hget, getElem?_set_self_of_some _ hget]
        · have h1 : (i + 1 ≤ j ∧ j < s.numberof_tasks) ↔ (i ≤ j ∧ j < s.numberof_tasks) := by
            omega
          have h2 : i ≠ j := fun h => hji h.symm
          simp only [h1, List.getElem?_set_ne h2]
    · refine ⟨s, by simp [hlt], rfl, rfl, fun j => ?_⟩
      have : ¬ (i ≤ j ∧ j < s.numberof_tasks) := by omega
      simp [this]

/-- One call of `tsk_task_time_manager` on a table whose length is within the
capacity returns, and it maps every registered record by `tick_record`. -/
theorem tsk_task_time_manager_spec (w : Nat) (s : Tasker)
    (hcap : s.numberof_tasks ≤ s.task_array.length) :
    ∃ s', tsk_task_time_manager w s = .ok s' ∧
      s'.numberof_tasks = s.numberof_tasks ∧
      s'.task_array.length = s.task_array.length ∧
      ∀ j, s'.task_array[j]? =
        if j < s.numberof_tasks then (s.task_array[j]?).map (tick_record w)
        else s.task_array[j]? := by
  obtain ⟨s', h1, h2, h3, h4⟩ :=
    tsk_task_time_manager_loop_spec w 256 0 s (by omega) (by omega) hcap
  exact ⟨s', h1, h2, h3, fun j => by simpa using h4 j⟩

theorem mem_registered {s : Tasker} {i : Nat} {t : Task} (hi : i < s.numberof_tasks)
    (h : s.task_array[i]? = some t) : t ∈ registered s := by
  have : (registered s)[i]? = some t := by
    simp [registered, List.getElem?_take_of_lt hi, h]
  exact List.mem_iff_getElem?.mpr ⟨i, this⟩

theorem exists_of_mem_registered {s : Tasker} {t : Task} (h : t ∈ registered s) :
    ∃ i, i < s.numberof_tasks ∧ s.task_array[i]? = some t := by
  obtain ⟨i, hi⟩ := List.mem_iff_getElem?.mp h
  simp only [registered, List.getElem?_take] at hi
  by_cases hlt : i < s.numberof_tasks
  · exact ⟨i, hlt, by simpa [hlt] using hi⟩
  · simp [hlt] at hi

theorem tick_record_run (w : Nat) (t : Task) : (tick_record w t).run = t.run := by
  unfold tick_record; split_ifs <;> rfl

theorem tick_record_period (w : Nat) (t : Task) : (tick_record w t).period = t.period := by
  unfold tick_record; split_ifs <;> rfl

theorem tick_record_paused (w : Nat) {t : Task} (h : t.state = PAUSED) :
    tick_record w t = t := by
  simp [tick_record, h]

/-- C1: one call of `tsk_task_time_manager` returns and maps every registered
record on its own: a PAUSED record stays as it was, a record that is not PAUSED
with `counter >= period` gets counter 1 and state READY, any other record that
is not PAUSED gets `counter + 1` (no reduction) and keeps its state; `run` and
`period`, `numberof_tasks`, the number of slots, the place of each record and
the slots that are not registered stay as they were.  The table has at most
`NUMBER_OF_TASKS` records and every period is a value of the `w`-bit type. -/
theorem C1_time_manager_maps_each_record (w : Nat) (s : Tasker)
    (hcap : s.numberof_tasks ≤ NUMBER_OF_TASKS s)
    (htime : ∀ t ∈ registered s, t.period < 2 ^ w) :
    ∃ s', tsk_task_time_manager w s = .ok s' ∧
      s'.numberof_tasks = s.numberof_tasks ∧
      NUMBER_OF_TASKS s' = NUMBER_OF_TASKS s ∧
      (∀ i, s.numberof_tasks ≤ i → s'.task_array[i]? = s.task_array[i]?) ∧
      ∀ i t, i < s.numberof_tasks → s.task_array[i]? = some t →
        ∃ t', s'.task_array[i]? = some t' ∧
          t'.run = t.run ∧ t'.period = t.period ∧
          (t.state = PAUSED → t' = t) ∧
          (t.state ≠ PAUSED → t.counter ≥ t.period →
            t'.counter = 1 ∧ t'.state = READY) ∧
          (t.state ≠ PAUSED → t.counter < t.period →
            t'.counter = t.counter + 1 ∧ t'.state = t.state) := by
  simp only [NUMBER_OF_TASKS] at hcap ⊢
  obtain ⟨s', h1, h2, h3, h4⟩ := tsk_task_time_manager_spec w s hcap
  refine ⟨s', h1, h2, h3, fun i hi => ?_, fun i t hi ht => ?_⟩
  · rw [h4 i, if_neg (by omega)]
  · refine ⟨tick_record w t, ?_, tick_record_run w t, tick_record_period w t,
      fun hp => tick_record_paused w hp, fun hp hc => ?_, fun hp hc => ?_⟩
    · rw [h4 i, if_pos hi, ht]; rfl
    · simp [tick_record, hp, hc]
    · have hlt : t.counter + 1 < 2 ^ w := by
        have := htime t (mem_registered hi ht)
        omega
      have hnc : ¬ t.counter ≥ t.period := by omega
      simp [tick_record, hp, hnc, Nat.mod_eq_of_lt hlt]

/-! ## Lookup by function pointer -/

theorem get_task_index_loop_spec (s : Tasker) (f : TaskFunctionPtr)
    (hcap : s.numberof_tasks ≤ s.task_array.length) :
    ∀ (fuel i : Nat), 256 ≤ fuel + i → i ≤ s.numberof_tasks →
      ∃ r, get_task_index_loop s f fuel i = .ok r ∧ i ≤ r ∧ r ≤ s.numberof_tasks ∧
        (∀ j t, i ≤ j → j < r → s.task_array[j]? = some t → t.run ≠ f) ∧
        (r < s.numberof_tasks → ∃ t, s.task_array[r]? = some t ∧ t.run = f) := by
  have hn := s.numberof_tasks_lt
  intro fuel
  induction fuel with
  | zero => intro i h1 h2; omega
  | succ fuel ih =>
    intro i hfuel hi
    unfold get_task_index_loop
    by_cases hlt : i < s.numberof_tasks
    · have hlen : i < s.task_array.length := by omega
      have hget : s.task_array[i]? = some s.task_array[i] := List.getElem?_eq_getElem hlen
      have hmod : (i + 1) % 256 = i + 1 := Nat.mod_eq_of_lt (by omega)
      simp only [hlt, if_true, load_of_getElem? hget, hmod]
      by_cases hrun : s.task_array[i].run = f
      · refine ⟨i, by simp [hrun], le_refl i, by omega, ?_, fun _ => ⟨_, hget, hrun⟩⟩
        intro j t h1 h2; omega
      · obtain ⟨r, hr, h1, h2, h3, h4⟩ := ih (i + 1) (by omega) (by omega)
        refine ⟨r, by simp [hrun, hr], by omega, h2, ?_, h4⟩
        intro j t hij hjr hjt
        by_cases hji : j = i
        · subst hji
          rw [hget] at hjt
          cases hjt
          exact hrun
        · exact h3 j t (by omega) hjr hjt
    · refine ⟨i, by simp [hlt], le_refl i, hi, ?_, fun h => absurd h hlt⟩
      intro j t h1 h2; omega

/-- The function `get_task_index` returns on a table within its capacity: the
result is at most `numberof_tasks`, no record before it has the function, and
when it is below `numberof_tasks` the record there has the function. -/
theorem get_task_index_spec (s : Tasker) (f : TaskFunctionPtr)
    (hcap : s.numberof_tasks ≤ s.task_array.length) :
    ∃ r, get_task_index s f = .ok r ∧ r ≤ s.numberof_tasks ∧
      (∀ j t, j < r → s.task_array[j]? = some t → t.run ≠ f) ∧
      (r < s.numberof_tasks → ∃ t, s.task_array[r]? = some t ∧ t.run = f) := by
  obtain ⟨r, h1, _, h3, h4, h5⟩ :=
    get_task_index_loop_spec s f hcap 256 0 (by omega) (by omega)
  exact ⟨r, h1, h3, fun j t hj => h4 j t (by omega) hj, h5⟩

theorem get_task_index_of_registered (s : Tasker) (f : TaskFunctionPtr)
    (hcap : s.numberof_tasks ≤ s.task_array.length)
    (hreg : ∃ t ∈ registered s, t.run = f) :
    ∃ r t, get_task_index s f = .ok r ∧ r < s.numberof_tasks ∧
      s.task_array[r]? = some t ∧ t.run = f ∧
      ∀ j t', j < r → s.task_array[j]? = some t' → t'.run ≠ f := by
  obtain ⟨r, h1, h2, h3, h4⟩ := get_task_index_spec s f hcap
  obtain ⟨t0, ht0, hf0⟩ := hreg
  obtain ⟨i0, hi0, hget0⟩ := exists_of_mem_registered ht0
  have hr : r < s.numberof_tasks := by
    by_contra hge
    exact h3 i0 t0 (by omega) hget0 hf0
  obtain ⟨t, ht, hf⟩ := h4 hr
  exact ⟨r, t, h1, hr, ht, hf, h3⟩

theorem get_task_index_of_not_registered (s : Tasker) (f : TaskFunctionPtr)
    (hcap : s.numberof_tasks ≤ s.task_array.length)
    (hnot : ∀ t ∈ registered s, t.run ≠ f) :
    get_task_index s f = .ok s.numberof_tasks := by
  obtain ⟨r, h1, h2, _, h4⟩ := get_task_index_spec s f hcap
  have hr : r = s.numberof_tasks := by
    by_contra hne
    have hlt : r < s.numberof_tasks := by omega
    obtain ⟨t, ht, hf⟩ := h4 hlt
    exact hnot t (mem_registered hlt ht) hf
  rw [h1, hr]

theorem get_task_index_loop_congr {s s' : Tasker}
    (hn : s'.numberof_tasks = s.numberof_tasks)
    (hrun : ∀ j, j < s.numberof_tasks →
      (s'.task_array[j]?).map Task.run = (s.task_array[j]?).map Task.run)
    (f : TaskFunctionPtr) :
    ∀ fuel i, get_task_index_loop s' f fuel i = get_task_index_loop s f fuel i := by
  intro fuel
  induction fuel with
  | zero => intro i; rfl
  | succ fuel ih =>
    intro i
    unfold get_task_index_loop
    rw [hn]
    by_cases hlt : i < s.numberof_tasks
    · have h := hrun i hlt
      simp only [hlt, if_true, load]
      cases h1 : s'.task_array[i]? with
      | none =>
        cases h2 : s.task_array[i]? with
        | none => rfl
        | some t2 => simp [h1, h2] at h
      | some t1 =>
        cases h2 : s.task_array[i]? with
        | none => simp [h1, h2] at h
        | some t2 =>
          have hrr : t1.run = t2.run := by simpa [h1, h2] using h
          simp only [hrr, ih]
    · simp only [hlt, if_false]

/-- The result of `get_task_index` depends on `numberof_tasks` and on the `run`
fields of the registered records only. -/
theorem get_task_index_congr {s s' : Tasker}
    (hn : s'.numberof_tasks = s.numberof_tasks)
    (hrun : ∀ j, j < s.numberof_tasks →
      (s'.task_array[j]?).map Task.run = (s.task_array[j]?).map Task.run)
    (f : TaskFunctionPtr) : get_task_index s' f = get_task_index s f :=
  get_task_index_loop_congr hn hrun f 256 0

theorem tick_record_iterate_run (w : Nat) (k : Nat) (t : Task) :
    ((tick_record w)^[k] t).run = t.run := by
  induction k with
  | zero => rfl
  | succ k ih => rw [Function.iterate_succ_apply', tick_record_run, ih]

theorem tick_record_iterate_paused (w : Nat) (k : Nat) {t : Task} (h : t.state = PAUSED) :
    (tick_record w)^[k] t = t :=
  Function.iterate_fixed (tick_record_paused w h) k

/-! ## The setters on a slot -/

theorem tsk_set_task_state_spec {s : Tasker} {f : TaskFunctionPtr} {r : Nat} {t : Task}
    (hidx : get_task_index s f = .ok r) (ht : s.task_array[r]? = some t)
    (new_state : TaskState) :
    tsk_set_task_state s f new_state =
      .ok { s with task_array := s.task_array.set r { t with
              state := new_state
              counter := if new_state = PAUSED then 1 else t.counter } } := by
  unfold tsk_set_task_state
  simp only [hidx, bind, Except.bind]
  rw [store_of_getElem? _ ht]
  by_cases hp : new_state = PAUSED
  · simp only [hp, if_true]
    rw [store_of_getElem? _ (getElem?_set_self_of_some _ ht)]
    simp
  · simp [hp, pure, Except.pure]

theorem tsk_get_task_state_spec {s : Tasker} {f : TaskFunctionPtr} {r : Nat} {t : Task}
    (hidx : get_task_index s f = .ok r) (ht : s.task_array[r]? = some t) :
    tsk_get_task_state s f = .ok t.state := by
  simp [tsk_get_task_state, hidx, bind, Except.bind, load_of_getElem? ht, pure, Except.pure]

theorem tsk_get_task_period_spec {s : Tasker} {f : TaskFunctionPtr} {r : Nat} {t : Task}
    (hidx : get_task_index s f = .ok r) (ht : s.task_array[r]? = some t) :
    tsk_get_task_period s f = .ok t.period := by
  simp [tsk_get_task_period, hidx, bind, Except.bind, load_of_getElem? ht, pure, Except.pure]

theorem tsk_get_task_counter_spec {s : Tasker} {f : TaskFunctionPtr} {r : Nat} {t : Task}
    (hidx : get_task_index s f = .ok r) (ht : s.task_array[r]? = some t) :
    tsk_get_task_counter s f = .ok t.counter := by
  simp [tsk_get_task_counter, hidx, bind, Except.bind, load_of_getElem? ht, pure, Except.pure]

/-- A store into a slot that keeps `run` does not change what `get_task_index`
returns. -/
theorem get_task_index_set {s : Tasker} {r : Nat} {t : Task} (x : Task)
    (ht : s.task_array[r]? = some t) (hx : x.run = t.run) (f : TaskFunctionPtr) :
    get_task_index { s with task_array := s.task_array.set r x } f = get_task_index s f := by
  have hn : ({ s with task_array := s.task_array.set r x } : Tasker).numberof_tasks
      = s.numberof_tasks := rfl
  refine get_task_index_congr hn (fun j _ => ?_) f
  by_cases hjr : j = r
  · subst hjr
    simp [getElem?_set_self_of_some _ ht, ht, hx]
  · have : r ≠ j := fun h => hjr h.symm
    simp [List.getElem?_set_ne this]

/-! ## Consecutive ticks -/

theorem ticks_spec (w : Nat) :
    ∀ (k : Nat) (s : Tasker), s.numberof_tasks ≤ s.task_array.length →
      ∃ s', ticks w k s = .ok s' ∧
        s'.numberof_tasks = s.numberof_tasks ∧
        s'.task_array.length = s.task_array.length ∧
        ∀ j, s'.task_array[j]? =
          if j < s.numberof_tasks then (s.task_array[j]?).map (tick_record w)^[k]
          else s.task_array[j]? := by
  intro k
  induction k with
  | zero =>
    intro s _
    exact ⟨s, rfl, rfl, rfl, fun j => by split <;> simp⟩
  | succ k ih =>
    intro s hcap
    obtain ⟨s1, h1, hn1, hl1, hj1⟩ := tsk_task_time_manager_spec w s hcap
    obtain ⟨s2, h2, hn2, hl2, hj2⟩ := ih s1 (by omega)
    refine ⟨s2, by simp [ticks, h1, h2], by omega, by omega, fun j => ?_⟩
    rw [hj2 j, hj1 j, hn1]
    split
    · simp [Function.iterate_succ, Option.map_map]
    · rfl

/-- Ticks do not change what `get_task_index` returns. -/
theorem get_task_index_ticks (w k : Nat) {s s' : Tasker}
    (hcap : s.numberof_tasks ≤ s.task_array.length)
    (h : ticks w k s = .ok s') (f : TaskFunctionPtr) :
    get_task_index s' f = get_task_index s f := by
  obtain ⟨s2, h1, h2, _, h4⟩ := ticks_spec w k s hcap
  rw [h] at h1
  cases h1
  refine get_task_index_congr h2 (fun j hj => ?_) f
  rw [h4 j, if_pos hj]
  cases s.task_array[j]? with
  | none => rfl
  | some t => simp [tick_record_iterate_run]

theorem tick_record_iterate_counting (w : Nat) (t : Task) (hs : t.state = RUNNABLE)
    (hc : t.counter = 1) (hw : t.period < 2 ^ w) :
    ∀ k, k < t.period →
      (tick_record w)^[k] t =
        { run := t.run, period := t.period, counter := k + 1, state := RUNNABLE } := by
  intro k
  induction k with
  | zero =>
    intro _
    cases t
    simp_all
  | succ k ih =>
    intro hk
    rw [Function.iterate_succ_apply', ih (by omega)]
    have h1 : ¬ (k + 1 ≥ t.period) := by omega
    have h2 : (k + 1 + 1) % 2 ^ w = k + 1 + 1 := Nat.mod_eq_of_lt (by omega)
    simp [tick_record, h1, h2]

theorem tick_record_iterate_period (w : Nat) (t : Task) (hs : t.state = RUNNABLE)
    (hc : t.counter = 1) (hp : 1 ≤ t.period) (hw : t.period < 2 ^ w) :
    (tick_record w)^[t.period] t =
      { run := t.run, period := t.period, counter := 1, state := READY } := by
  obtain ⟨k, hk⟩ : ∃ k, t.period = k + 1 := ⟨t.period - 1, by omega⟩
  rw [hk, Function.iterate_succ_apply',
    tick_record_iterate_counting w t hs hc hw k (by omega)]
  simp [tick_record, hk]

/-- C2: a registered record with period `p >= 1` (a value of the `w`-bit time
type), counter 1 and state RUNNABLE: `k` consecutive calls of
`tsk_task_time_manager` with `k < p` leave it RUNNABLE with counter `k + 1`,
and `p` consecutive calls leave it READY with counter 1; so it turns READY at
the `p`-th call and at no call before. -/
theorem C2_period_ticks_make_ready_once (w : Nat) (s : Tasker) (i : Nat) (t : Task)
    (hcap : s.numberof_tasks ≤ NUMBER_OF_TASKS s)
    (hi : i < s.numberof_tasks) (ht : s.task_array[i]? = some t)
    (hp : 1 ≤ t.period) (hw : t.period < 2 ^ w)
    (hc : t.counter = 1) (hs : t.state = RUNNABLE) :
    (∀ k, k < t.period → ∃ s', ticks w k s = .ok s' ∧
      s'.task_array[i]? =
        some { run := t.run, period := t.period, counter := k + 1, state := RUNNABLE }) ∧
    ∃ s', ticks w t.period s = .ok s' ∧
      s'.task_array[i]? =
        some { run := t.run, period := t.period, counter := 1, state := READY } := by
  simp only [NUMBER_OF_TASKS] at hcap
  constructor
  · intro k hk
    obtain ⟨s', h1, _, _, h4⟩ := ticks_spec w k s hcap
    refine ⟨s', h1, ?_⟩
    rw [h4 i, if_pos hi, ht, Option.map_some', tick_record_iterate_counting w t hs hc hw k hk]
  · obtain ⟨s', h1, _, _, h4⟩ := ticks_spec w t.period s hcap
    refine ⟨s', h1, ?_⟩
    rw [h4 i, if_pos hi, ht, Option.map_some', tick_record_iterate_period w t hs hc hp hw]

/-! ## Pausing and resuming -/

/-- Pausing a registered task and ticking: both return, the lookup still finds
the same slot, and the slot holds the record with state PAUSED and counter 1. -/
theorem pause_then_ticks (w : Nat) (s : Tasker) (f : TaskFunctionPtr) (n : Nat)
    (hcap : s.numberof_tasks ≤ s.task_array.length)
    (hreg : ∃ t ∈ registered s, t.run = f) :
    ∃ r t s1 s2, s.task_array[r]? = some t ∧
      tsk_set_task_state s f PAUSED = .ok s1 ∧ ticks w n s1 = .ok s2 ∧
      get_task_index s2 f = .ok r ∧
      s2.task_array[r]? =
        some { run := t.run, period := t.period, counter := 1, state := PAUSED } := by
  obtain ⟨r, t, hidx, hr, ht, _, _⟩ := get_task_index_of_registered s f hcap hreg
  have hset := tsk_set_task_state_spec hidx ht PAUSED
  simp only [if_true] at hset
  obtain ⟨s2, h1, _, _, h4⟩ := ticks_spec w n
    { s with task_array := s.task_array.set r { t with state := PAUSED, counter := 1 } }
    (by simpa using hcap)
  refine ⟨r, t, _, s2, ht, hset, h1, ?_, ?_⟩
  · rw [get_task_index_ticks w n (by simpa using hcap) h1 f,
      get_task_index_set ⟨t.run, t.period, 1, PAUSED⟩ ht rfl f, hidx]
  · rw [h4 r]
    simp only [hr, if_true, getElem?_set_self_of_some _ ht, Option.map_some']
    rw [tick_record_iterate_paused w n rfl]

/-- C3: for a registered function `f`, whatever the counter and state of its
record, `tsk_set_task_state(f, PAUSED)` followed by `n` calls of
`tsk_task_time_manager` returns, and then `tsk_get_task_counter(f)` is 1 and
`tsk_get_task_state(f)` is PAUSED. -/
theorem C3_paused_task_keeps_counter_one (w : Nat) (s : Tasker) (f : TaskFunctionPtr)
    (n : Nat) (hcap : s.numberof_tasks ≤ NUMBER_OF_TASKS s)
    (hreg : ∃ t ∈ registered s, t.run = f) :
    ∃ s1 s2, tsk_set_task_state s f PAUSED = .ok s1 ∧ ticks w n s1 = .ok s2 ∧
      tsk_get_task_counter s2 f = .ok 1 ∧ tsk_get_task_state s2 f = .ok PAUSED := by
  obtain ⟨r, t, s1, s2, _, h1, h2, h3, h4⟩ := pause_then_ticks w s f n hcap hreg
  exact ⟨s1, s2, h1, h2, tsk_get_task_counter_spec h3 h4, tsk_get_task_state_spec h3 h4⟩

/-- C4: for a registered function `f`, whatever counter its record had and
however many ticks `n` pass while it is paused: `tsk_set_task_state(f, PAUSED)`,
`n` calls of `tsk_task_time_manager` and `tsk_set_task_state(f, RUNNABLE)` all
return, and then `tsk_get_task_state(f)` is RUNNABLE and
`tsk_get_task_counter(f)` is 1. -/
theorem C4_resume_restarts_from_one (w : Nat) (s : Tasker) (f : TaskFunctionPtr)
    (n : Nat) (hcap : s.numberof_tasks ≤ NUMBER_OF_TASKS s)
    (hreg : ∃ t ∈ registered s, t.run = f) :
    ∃ s1 s2 s3, tsk_set_task_state s f PAUSED = .ok s1 ∧ ticks w n s1 = .ok s2 ∧
      tsk_set_task_state s2 f RUNNABLE = .ok s3 ∧
      tsk_get_task_state s3 f = .ok RUNNABLE ∧ tsk_get_task_counter s3 f = .ok 1 := by
  obtain ⟨r, t, s1, s2, _, h1, h2, h3, h4⟩ := pause_then_ticks w s f n hcap hreg
  have hset : tsk_set_task_state s2 f RUNNABLE =
      .ok { s2 with task_array := s2.task_array.set r ⟨t.run, t.period, 1, RUNNABLE⟩ } := by
    rw [tsk_set_task_state_spec h3 h4 RUNNABLE]
    simp
  have hidx := (get_task_index_set ⟨t.run, t.period, 1, RUNNABLE⟩ h4 rfl f).trans h3
  have hget := getElem?_set_self_of_some ⟨t.run, t.period, 1, RUNNABLE⟩ h4
  exact ⟨s1, s2, _, h1, h2, hset, tsk_get_task_state_spec hidx hget,
    tsk_get_task_counter_spec hidx hget⟩

/-! ## The runner -/

theorem drop_take_set (l : List Task) (i n : Nat) (x : Task) :
    ((l.set i x).take n).drop (i + 1) = (l.take n).drop (i + 1) := by
  apply List.ext_getElem?
  intro k
  simp only [List.getElem?_drop, List.getElem?_take]
  split
  · rw [List.getElem?_set_ne (by omega)]
  · rfl

theorem drop_take_cons (l : List Task) (i n : Nat) (hi : i < n) (hl : i < l.length) :
    (l.take n).drop i = l[i] :: (l.take n).drop (i + 1) := by
  have h : i < (l.take n).length := by simp [List.length_take]; omega
  rw [List.drop_eq_getElem_cons h, List.getElem_take]

theorem pair_sublist (l : List Task) (i j : Nat) (a b : Task) (hij : i < j)
    (ha : l[i]? = some a) (hb : l[j]? = some b) : List.Sublist [a, b] l := by
  have h1 : List.Sublist [a] (l.take j) := by
    rw [List.singleton_sublist]
    apply List.mem_iff_getElem?.mpr
    exact ⟨i, by rw [List.getElem?_take_of_lt hij, ha]⟩
  have h2 : List.Sublist [b] (l.drop j) := by
    rw [List.singleton_sublist]
    apply List.mem_iff_getElem?.mpr
    exact ⟨0, by simp [List.getElem?_drop, hb]⟩
  have := h1.append h2
  simpa using this

theorem tsk_task_runner_loop_quiet_spec :
    ∀ (fuel i : Nat) (s : Tasker), 256 ≤ fuel + i → i ≤ s.numberof_tasks →
      s.numberof_tasks ≤ s.task_array.length →
      ∃ s', tsk_task_runner_loop quiet_body fuel i s =
          .ok (s', ((((s.task_array.take s.numberof_tasks).drop i).filter
            (fun t => t.state = READY)).map Task.run)) ∧
        s'.numberof_tasks = s.numberof_tasks ∧
        s'.task_array.length = s.task_array.length ∧
        ∀ j, s'.task_array[j]? =
          if i ≤ j ∧ j < s.numberof_tasks then (s.task_array[j]?).map dispatch_record
          else s.task_array[j]? := by
  intro fuel
  induction fuel with
  | zero => intro i s h1 h2; have := s.numberof_tasks_lt; omega
  | succ fuel ih =>
    intro i s hfuel hi hcap
    have hn := s.numberof_tasks_lt
    unfold tsk_task_runner_loop
    by_cases hlt : i < s.numberof_tasks
    · have hlen : i < s.task_array.length := by omega
      have hget : s.task_array[i]? = some s.task_array[i] := List.getElem?_eq_getElem hlen
      have hmod : (i + 1) % 256 = i + 1 := Nat.mod_eq_of_lt (by omega)
      have hiff : ∀ j, j ≠ i →
          ((i + 1 ≤ j ∧ j < s.numberof_tasks) ↔ (i ≤ j ∧ j < s.numberof_tasks)) := by
        intro j hj; omega
      simp only [hlt, if_true, load_of_getElem? hget, hmod]
      rw [drop_take_cons s.task_array i s.numberof_tasks hlt hlen]
      by_cases hr : s.task_array[i].state = READY
      · have hstore : store s i (fun t => { t with state := RUNNABLE }) =
            .ok { s with task_array :=
              (s.task_array.set i ⟨s.task_array[i].run, s.task_array[i].period,
                s.task_array[i].counter, RUNNABLE⟩) } := store_of_getElem? _ hget
        have hload : load { s with task_array :=
              (s.task_array.set i ⟨s.task_array[i].run, s.task_array[i].period,
                s.task_array[i].counter, RUNNABLE⟩) } i =
            .ok ⟨s.task_array[i].run, s.task_array[i].period,
                s.task_array[i].counter, RUNNABLE⟩ :=
          load_of_getElem? (getElem?_set_self_of_some _ hget)
        obtain ⟨s', hs', hn', hl', hj'⟩ :=
          ih (i + 1)
            { s with task_array :=
              (s.task_array.set i ⟨s.task_array[i].run, s.task_array[i].period,
                s.task_array[i].counter, RUNNABLE⟩) }
            (by omega) (by show i + 1 ≤ s.numberof_tasks; omega) (by simpa using hcap)
        simp only [drop_take_set] at hs'
        refine ⟨s', ?_, hn', by simpa using hl', fun j => ?_⟩
        · simp only [hr, if_true, hstore, hload, quiet_body, hs']
          simp [hr]
        · rw [hj' j]
          by_cases hji : j = i
          · subst hji
            simp [hlt, hget, getElem?_set_self_of_some _ hget, dispatch_record, hr]
          · have h2 : i ≠ j := fun h => hji h.symm
            simp only [hiff j hji, List.getElem?_set_ne h2]
      · obtain ⟨s', hs', hn', hl', hj'⟩ := ih (i + 1) s (by omega) (by omega) hcap
        refine ⟨s', ?_, hn', hl', fun j => ?_⟩
        · simp only [hr, if_false, hs']
          simp [hr]
        · rw [hj' j]
          by_cases hji : j = i
          · subst hji
            simp [hlt, hget, dispatch_record, hr]
          · simp only [hiff j hji]
    · have hin : i = s.numberof_tasks := by omega
      have hnil : (s.task_array.take s.numberof_tasks).drop s.numberof_tasks = [] :=
        List.drop_eq_nil_of_le (by simp [List.length_take])
      refine ⟨s, ?_, rfl, rfl, fun j => ?_⟩
      · simp [hin, hnil]
      · have : ¬ (i ≤ j ∧ j < s.numberof_tasks) := by omega
        simp [this]

/-- With task bodies that leave the table as it is, `tsk_task_runner` returns:
the calls are `ready_calls`, and every registered record is mapped by
`dispatch_record`. -/
theorem tsk_task_runner_quiet_spec (s : Tasker)
    (hcap : s.numberof_tasks ≤ s.task_array.length) :
    ∃ s', tsk_task_runner quiet_body s = .ok (s', ready_calls s) ∧
      s'.numberof_tasks = s.numberof_tasks ∧
      s'.task_array.length = s.task_array.length ∧
      ∀ j, s'.task_array[j]? =
        if j < s.numberof_tasks then (s.task_array[j]?).map dispatch_record
        else s.task_array[j]? := by
  obtain ⟨s', h1, h2, h3, h4⟩ :=
    tsk_task_runner_loop_quiet_spec 256 0 s (by omega) (by omega) hcap
  refine ⟨s', ?_, h2, h3, fun j => by simpa using h4 j⟩
  simpa [tsk_task_runner, ready_calls, registered] using h1

theorem tsk_task_runner_loop_none_ready
    (body : TaskFunctionPtr → Tasker → Except Fault Tasker) (s : Tasker)
    (hcap : s.numberof_tasks ≤ s.task_array.length)
    (hnone : ∀ t ∈ registered s, t.state ≠ READY) :
    ∀ (fuel i : Nat), 256 ≤ fuel + i → i ≤ s.numberof_tasks →
      tsk_task_runner_loop body fuel i s = .ok (s, []) := by
  have hn := s.numberof_tasks_lt
  intro fuel
  induction fuel with
  | zero => intro i h1 h2; omega
  | succ fuel ih =>
    intro i hfuel hi
    unfold tsk_task_runner_loop
    by_cases hlt : i < s.numberof_tasks
    · have hlen : i < s.task_array.length := by omega
      have hget : s.task_array[i]? = some s.task_array[i] := List.getElem?_eq_getElem hlen
      have hmod : (i + 1) % 256 = i + 1 := Nat.mod_eq_of_lt (by omega)
      have hr : s.task_array[i].state ≠ READY := hnone _ (mem_registered hlt hget)
      simp only [hlt, if_true, load_of_getElem? hget, hmod, hr, if_false]
      exact ih (i + 1) (by omega) (by omega)
    · simp [hlt]

/-- C5: in a table whose registered functions are pairwise distinct, with task
bodies that leave the table as it is, one call of `tsk_task_runner` returns,
calls the function of a record that was READY exactly once, and leaves that
record RUNNABLE with the `run`, `period` and `counter` it had. -/
theorem C5_ready_task_called_once (s : Tasker) (i : Nat) (t : Task)
    (hcap : s.numberof_tasks ≤ NUMBER_OF_TASKS s)
    (hdistinct : ((registered s).map Task.run).Nodup)
    (hi : i < s.numberof_tasks) (ht : s.task_array[i]? = some t)
    (hready : t.state = READY) :
    ∃ s' calls, tsk_task_runner quiet_body s = .ok (s', calls) ∧
      calls.count t.run = 1 ∧
      s'.task_array[i]? =
        some { run := t.run, period := t.period, counter := t.counter, state := RUNNABLE } := by
  obtain ⟨s', h1, _, _, h4⟩ := tsk_task_runner_quiet_spec s hcap
  refine ⟨s', ready_calls s, h1, ?_, ?_⟩
  · have hsub : List.Sublist (ready_calls s) ((registered s).map Task.run) :=
      (List.filter_sublist _).map Task.run
    have hle : (ready_calls s).count t.run ≤ 1 :=
      le_trans (hsub.count_le t.run) (List.nodup_iff_count_le_one.mp hdistinct t.run)
    have hmem : t.run ∈ ready_calls s := by
      refine List.mem_map.mpr ⟨t, ?_, rfl⟩
      exact List.mem_filter.mpr ⟨mem_registered hi ht, by simp [hready]⟩
    have hpos : 0 < (ready_calls s).count t.run := List.count_pos_iff.mpr hmem
    omega
  · rw [h4 i, if_pos hi, ht]
    simp [dispatch_record, hready]

/-- C6: when no registered record is READY, one call of `tsk_task_runner`
returns, calls no function, whatever the task bodies would do, and leaves
`task_array` and `numberof_tasks` exactly as they were. -/
theorem C6_runner_without_ready_task
    (body : TaskFunctionPtr → Tasker → Except Fault Tasker) (s : Tasker)
    (hcap : s.numberof_tasks ≤ NUMBER_OF_TASKS s)
    (hnone : ∀ t ∈ registered s, t.state ≠ READY) :
    tsk_task_runner body s = .ok (s, []) :=
  tsk_task_runner_loop_none_ready body s hcap hnone 256 0 (by omega) (by omega)

/-- C7: with task bodies that leave the table as it is, the calls made by one
call of `tsk_task_runner` are the `run` fields of the registered records that
are READY, in index order; so of two READY records the one at the smaller index
is called before the other. -/
theorem C7_runner_calls_in_registration_order (s : Tasker)
    (hcap : s.numberof_tasks ≤ NUMBER_OF_TASKS s) :
    ∃ s' calls, tsk_task_runner quiet_body s = .ok (s', calls) ∧
      calls = ((registered s).filter (fun t => t.state = READY)).map Task.run ∧
      ∀ i j a b, i < j → j < s.numberof_tasks →
        s.task_array[i]? = some a → s.task_array[j]? = some b →
        a.state = READY → b.state = READY → List.Sublist [a.run, b.run] calls := by
  obtain ⟨s', h1, _, _, _⟩ := tsk_task_runner_quiet_spec s hcap
  refine ⟨s', ready_calls s, h1, rfl, fun i j a b hij hj ha hb hra hrb => ?_⟩
  have ha' : (registered s)[i]? = some a := by
    simp only [registered]
    rw [List.getElem?_take_of_lt (by omega), ha]
  have hb' : (registered s)[j]? = some b := by
    simp only [registered]
    rw [List.getElem?_take_of_lt hj, hb]
  have hsub := pair_sublist (registered s) i j a b hij ha' hb'
  have hfil := hsub.filter (fun t => decide (t.state = READY))
  have hmap := hfil.map Task.run
  simpa [ready_calls, hra, hrb] using hmap

/-! ## Registration -/

/-- With a free slot at index `numberof_tasks`, `tsk_task_create` returns: the
slot holds the new record and the count is incremented as a `uint8_t`. -/
theorem tsk_task_create_spec (s : Tasker) (function : TaskFunctionPtr)
    (state : TaskState) (period : TaskTime)
    (hroom : s.numberof_tasks < s.task_array.length) :
    ∃ s', tsk_task_create s function state period = .ok s' ∧
      s'.task_array = s.task_array.set s.numberof_tasks ⟨function, period, 1, state⟩ ∧
      s'.numberof_tasks = (s.numberof_tasks + 1) % 256 := by
  have hget : s.task_array[s.numberof_tasks]? = some s.task_array[s.numberof_tasks] :=
    List.getElem?_eq_getElem hroom
  unfold tsk_task_create
  simp only [bind, Except.bind, pure, Except.pure]
  rw [store_of_getElem? _ hget]
  simp only
  rw [store_of_getElem? _ (getElem?_set_self_of_some _ hget)]
  simp only
  rw [store_of_getElem? _ (getElem?_set_self_of_some _ (getElem?_set_self_of_some _ hget))]
  simp only
  rw [store_of_getElem? _ (getElem?_set_self_of_some _
    (getElem?_set_self_of_some _ (getElem?_set_self_of_some _ hget)))]
  exact ⟨_, rfl, by simp, rfl⟩

/-- With `numberof_tasks` at or beyond the number of slots, the first store of
`tsk_task_create` is outside `task_array`. -/
theorem tsk_task_create_full (s : Tasker) (function : TaskFunctionPtr)
    (state : TaskState) (period : TaskTime)
    (hfull : s.task_array.length ≤ s.numberof_tasks) :
    tsk_task_create s function state period =
      .error (.out_of_bounds s.numberof_tasks) := by
  unfold tsk_task_create
  simp only [bind, Except.bind]
  rw [store_of_le _ hfull]

/-- The count is a `uint8_t`: registering a 256th task in an array of more than
255 slots returns with `numberof_tasks` back at 0. -/
theorem tsk_task_create_count_wraps (s : Tasker) (function : TaskFunctionPtr)
    (state : TaskState) (period : TaskTime)
    (hn : s.numberof_tasks = 255) (hroom : 255 < s.task_array.length) :
    ∃ s', tsk_task_create s function state period = .ok s' ∧ s'.numberof_tasks = 0 := by
  obtain ⟨s', h1, _, h3⟩ := tsk_task_create_spec s function state period (by omega)
  exact ⟨s', h1, by rw [h3, hn]⟩

/-- C8: in a table with `n` records, `n` below `NUMBER_OF_TASKS` (and
`NUMBER_OF_TASKS` at most 255, the largest count a `uint8_t` holds),
`tsk_task_create` returns; the slot at index `n` holds the given function,
period and state with counter 1, `numberof_tasks` is `n + 1`, the array has the
slots it had, and every other slot, so every record below `n`, is unchanged. -/
theorem C8_create_stores_at_next_free_slot (s : Tasker) (function : TaskFunctionPtr)
    (state : TaskState) (period : TaskTime)
    (hroom : s.numberof_tasks < NUMBER_OF_TASKS s)
    (hcfg : NUMBER_OF_TASKS s ≤ 255) :
    ∃ s', tsk_task_create s function state period = .ok s' ∧
      s'.task_array[s.numberof_tasks]? =
        some { run := function, period := period, counter := 1, state := state } ∧
      s'.numberof_tasks = s.numberof_tasks + 1 ∧
      NUMBER_OF_TASKS s' = NUMBER_OF_TASKS s ∧
      ∀ i, i ≠ s.numberof_tasks → s'.task_array[i]? = s.task_array[i]? := by
  simp only [NUMBER_OF_TASKS] at hroom hcfg ⊢
  obtain ⟨s', h1, h2, h3⟩ := tsk_task_create_spec s function state period hroom
  have hget : s.task_array[s.numberof_tasks]? = some s.task_array[s.numberof_tasks] :=
    List.getElem?_eq_getElem hroom
  refine ⟨s', h1, ?_, ?_, ?_, fun i hi => ?_⟩
  · rw [h2]; exact getElem?_set_self_of_some _ hget
  · rw [h3]; exact Nat.mod_eq_of_lt (by omega)
  · rw [h2, List.length_set]
  · rw [h2, List.getElem?_set_ne (fun h => hi h.symm)]

/-! ## Lookups that find no record -/

theorem tsk_set_task_period_spec {s : Tasker} {f : TaskFunctionPtr} {r : Nat} {t : Task}
    (hidx : get_task_index s f = .ok r) (ht : s.task_array[r]? = some t)
    (new_period : TaskTime) :
    tsk_set_task_period s f new_period =
      .ok { s with task_array := s.task_array.set r { t with period := new_period } } := by
  unfold tsk_set_task_period
  simp only [hidx, bind, Except.bind]
  rw [store_of_getElem? _ ht]

theorem tsk_set_task_counter_spec {s : Tasker} {f : TaskFunctionPtr} {r : Nat} {t : Task}
    (hidx : get_task_index s f = .ok r) (ht : s.task_array[r]? = some t)
    (new_counter : TaskTime) :
    tsk_set_task_counter s f new_counter =
      .ok { s with task_array := s.task_array.set r { t with counter := new_counter } } := by
  unfold tsk_set_task_counter
  simp only [hidx, bind, Except.bind]
  rw [store_of_getElem? _ ht]

/-- When `get_task_index` returns an index outside `task_array`, every getter
and setter accesses the array there. -/
theorem accessors_out_of_bounds {s : Tasker} {f : TaskFunctionPtr} {r : Nat}
    (hidx : get_task_index s f = .ok r) (hr : s.task_array.length ≤ r) :
    tsk_get_task_state s f = .error (.out_of_bounds r) ∧
    tsk_get_task_period s f = .error (.out_of_bounds r) ∧
    tsk_get_task_counter s f = .error (.out_of_bounds r) ∧
    (∀ st, tsk_set_task_state s f st = .error (.out_of_bounds r)) ∧
    (∀ v, tsk_set_task_period s f v = .error (.out_of_bounds r)) ∧
    (∀ v, tsk_set_task_counter s f v = .error (.out_of_bounds r)) := by
  refine ⟨?_, ?_, ?_, fun st => ?_, fun v => ?_, fun v => ?_⟩
  · simp [tsk_get_task_state, hidx, bind, Except.bind, load_of_le hr]
  · simp [tsk_get_task_period, hidx, bind, Except.bind, load_of_le hr]
  · simp [tsk_get_task_counter, hidx, bind, Except.bind, load_of_le hr]
  · simp [tsk_set_task_state, hidx, bind, Except.bind, store_of_le _ hr]
  · simp [tsk_set_task_period, hidx, bind, Except.bind, store_of_le _ hr]
  · simp [tsk_set_task_counter, hidx, bind, Except.bind, store_of_le _ hr]

/-- C9, as the code has it: `tsk_task_create` makes no test of the capacity.
When the table already holds `NUMBER_OF_TASKS` tasks the call is not rejected:
its first store is to `task_array[NUMBER_OF_TASKS]`, outside the array.  The
count stays at most `NUMBER_OF_TASKS` after a call made with a free slot
(`NUMBER_OF_TASKS` at most 255). -/
theorem C9_create_has_no_capacity_check (s : Tasker) (function : TaskFunctionPtr)
    (state : TaskState) (period : TaskTime) :
    (s.numberof_tasks = NUMBER_OF_TASKS s →
      tsk_task_create s function state period =
        .error (.out_of_bounds (NUMBER_OF_TASKS s))) ∧
    (s.numberof_tasks < NUMBER_OF_TASKS s → NUMBER_OF_TASKS s ≤ 255 →
      ∃ s', tsk_task_create s function state period = .ok s' ∧
        s'.numberof_tasks ≤ NUMBER_OF_TASKS s') := by
  simp only [NUMBER_OF_TASKS]
  constructor
  · intro hfull
    rw [tsk_task_create_full s function state period (by omega), hfull]
  · intro hroom hcfg
    obtain ⟨s', h1, h2, h3⟩ := tsk_task_create_spec s function state period hroom
    refine ⟨s', h1, ?_⟩
    rw [h2, h3, List.length_set, Nat.mod_eq_of_lt (by omega)]
    omega

/-- C9 fails on the code: on `full_table`, whose two slots are both registered,
`tsk_task_create` stores at index 2, outside the array, so it does not return a
table with the same records and a count within the capacity. -/
theorem C9_create_on_full_table_stores_outside :
    full_table.numberof_tasks = NUMBER_OF_TASKS full_table ∧
    tsk_task_create full_table 9 RUNNABLE 3 = .error (.out_of_bounds 2) ∧
    ¬ ∃ s', tsk_task_create full_table 9 RUNNABLE 3 = .ok s' ∧
        s'.numberof_tasks ≤ NUMBER_OF_TASKS s' ∧ registered s' = registered full_table := by
  refine ⟨by decide, by decide, ?_⟩
  rintro ⟨s', h, _⟩
  have h2 : tsk_task_create full_table 9 RUNNABLE 3 = .error (.out_of_bounds 2) := by decide
  rw [h2] at h
  cases h

/-- C10, as the code has it: for a function that no registered record has,
`get_task_index` returns `numberof_tasks` and no getter or setter reports a
failure.  While that index is a slot of the array, the getters return the
fields of that slot and the setters write that slot and nothing else; when it
is `NUMBER_OF_TASKS`, each of them accesses the array outside its slots. -/
theorem C10_unregistered_function_uses_slot_at_length (s : Tasker) (f : TaskFunctionPtr)
    (hcap : s.numberof_tasks ≤ NUMBER_OF_TASKS s)
    (hnot : ∀ t ∈ registered s, t.run ≠ f) :
    get_task_index s f = .ok s.numberof_tasks ∧
    (∀ t, s.task_array[s.numberof_tasks]? = some t →
      tsk_get_task_state s f = .ok t.state ∧
      tsk_get_task_period s f = .ok t.period ∧
      tsk_get_task_counter s f = .ok t.counter ∧
      (∀ st, tsk_set_task_state s f st =
        .ok { s with task_array := s.task_array.set s.numberof_tasks { t with
                state := st
                counter := if st = PAUSED then 1 else t.counter } }) ∧
      (∀ v, tsk_set_task_period s f v =
        .ok { s with task_array := s.task_array.set s.numberof_tasks { t with period := v } }) ∧
      (∀ v, tsk_set_task_counter s f v =
        .ok { s with task_array :=
                (s.task_array.set s.numberof_tasks { t with counter := v }) })) ∧
    (s.numberof_tasks = NUMBER_OF_TASKS s →
      tsk_get_task_state s f = .error (.out_of_bounds s.numberof_tasks) ∧
      tsk_get_task_period s f = .error (.out_of_bounds s.numberof_tasks) ∧
      tsk_get_task_counter s f = .error (.out_of_bounds s.numberof_tasks) ∧
      (∀ st, tsk_set_task_state s f st = .error (.out_of_bounds s.numberof_tasks)) ∧
      (∀ v, tsk_set_task_period s f v = .error (.out_of_bounds s.numberof_tasks)) ∧
      (∀ v, tsk_set_task_counter s f v = .error (.out_of_bounds s.numberof_tasks))) := by
  simp only [NUMBER_OF_TASKS] at hcap ⊢
  have hidx := get_task_index_of_not_registered s f hcap hnot
  refine ⟨hidx, fun t ht => ?_, fun hfull => accessors_out_of_bounds hidx (by omega)⟩
  exact ⟨tsk_get_task_state_spec hidx ht, tsk_get_task_period_spec hidx ht,
    tsk_get_task_counter_spec hidx ht, fun st => tsk_set_task_state_spec hidx ht st,
    fun v => tsk_set_task_period_spec hidx ht v,
    fun v => tsk_set_task_counter_spec hidx ht v⟩

/-- C10 fails on the code: no record of `sample_table` has the function 9, yet
`tsk_get_task_period` returns the period of the slot at index 2, the table
length, and `tsk_set_task_period` and `tsk_set_task_state` write that slot. -/
theorem C10_unregistered_function_reaches_free_slot :
    (∀ t ∈ registered sample_table, t.run ≠ 9) ∧
    tsk_get_task_period sample_table 9 = .ok 0 ∧
    tsk_set_task_period sample_table 9 5 =
      .ok ⟨[⟨1, 3, 1, RUNNABLE⟩, ⟨2, 1, 1, READY⟩, ⟨0, 5, 0, RUNNABLE⟩], 2, by decide⟩ ∧
    tsk_set_task_state sample_table 9 PAUSED =
      .ok ⟨[⟨1, 3, 1, RUNNABLE⟩, ⟨2, 1, 1, READY⟩, ⟨0, 0, 1, PAUSED⟩], 2, by decide⟩ ∧
    (tsk_set_task_period sample_table 9 5 >>= fun s => tsk_get_task_period s 9) = .ok 5 := by
  decide

/-! ## The theorems at concrete tables -/

/-- C1 at `sample_table` with an 8-bit time type. -/
theorem C1_time_manager_maps_each_record_witness :
    (sample_table.numberof_tasks ≤ NUMBER_OF_TASKS sample_table ∧
      ∀ t ∈ registered sample_table, t.period < 2 ^ 8) ∧
    ∃ s', tsk_task_time_manager 8 sample_table = .ok s' ∧
      s'.numberof_tasks = sample_table.numberof_tasks ∧
      NUMBER_OF_TASKS s' = NUMBER_OF_TASKS sample_table :=
  ⟨⟨by decide, by decide⟩,
    (C1_time_manager_maps_each_record 8 sample_table (by decide) (by decide)).imp
      fun _ h => ⟨h.1, h.2.1, h.2.2.1⟩⟩

/-- C2 at the first record of `sample_table`, whose period is 3. -/
theorem C2_period_ticks_make_ready_once_witness :
    (sample_table.numberof_tasks ≤ NUMBER_OF_TASKS sample_table ∧
      sample_table.task_array[0]? = some ⟨1, 3, 1, RUNNABLE⟩) ∧
    ∃ s', ticks 8 3 sample_table = .ok s' ∧
      s'.task_array[0]? = some ⟨1, 3, 1, READY⟩ :=
  ⟨⟨by decide, by decide⟩,
    (C2_period_ticks_make_ready_once 8 sample_table 0 ⟨1, 3, 1, RUNNABLE⟩
      (by decide) (by decide) (by decide) (by decide) (by decide) rfl rfl).2⟩

/-- C3 at `sample_table`, the function 1 and five ticks. -/
theorem C3_paused_task_keeps_counter_one_witness :
    (sample_table.numberof_tasks ≤ NUMBER_OF_TASKS sample_table ∧
      ∃ t ∈ registered sample_table, t.run = 1) ∧
    ∃ s1 s2, tsk_set_task_state sample_table 1 PAUSED = .ok s1 ∧ ticks 8 5 s1 = .ok s2 ∧
      tsk_get_task_counter s2 1 = .ok 1 ∧ tsk_get_task_state s2 1 = .ok PAUSED :=
  ⟨⟨by decide, by decide⟩,
    C3_paused_task_keeps_counter_one 8 sample_table 1 5 (by decide) (by decide)⟩

/-- C4 at `sample_table`, the function 2 and four ticks. -/
theorem C4_resume_restarts_from_one_witness :
    (sample_table.numberof_tasks ≤ NUMBER_OF_TASKS sample_table ∧
      ∃ t ∈ registered sample_table, t.run = 2) ∧
    ∃ s1 s2 s3, tsk_set_task_state sample_table 2 PAUSED = .ok s1 ∧
      ticks 8 4 s1 = .ok s2 ∧ tsk_set_task_state s2 2 RUNNABLE = .ok s3 ∧
      tsk_get_task_state s3 2 = .ok RUNNABLE ∧ tsk_get_task_counter s3 2 = .ok 1 :=
  ⟨⟨by decide, by decide⟩,
    C4_resume_restarts_from_one 8 sample_table 2 4 (by decide) (by decide)⟩

/-- C5 at the second record of `sample_table`, which is READY. -/
theorem C5_ready_task_called_once_witness :
    (sample_table.numberof_tasks ≤ NUMBER_OF_TASKS sample_table ∧
      ((registered sample_table).map Task.run).Nodup ∧
      sample_table.task_array[1]? = some ⟨2, 1, 1, READY⟩) ∧
    ∃ s' calls, tsk_task_runner quiet_body sample_table = .ok (s', calls) ∧
      calls.count 2 = 1 ∧ s'.task_array[1]? = some ⟨2, 1, 1, RUNNABLE⟩ :=
  ⟨⟨by decide, by decide, by decide⟩,
    C5_ready_task_called_once sample_table 1 ⟨2, 1, 1, READY⟩
      (by decide) (by decide) (by decide) (by decide) rfl⟩

/-- C6 at `full_table`, where no record is READY. -/
theorem C6_runner_without_ready_task_witness :
    (full_table.numberof_tasks ≤ NUMBER_OF_TASKS full_table ∧
      ∀ t ∈ registered full_table, t.state ≠ READY) ∧
    tsk_task_runner quiet_body full_table = .ok (full_table, []) :=
  ⟨⟨by decide, by decide⟩,
    C6_runner_without_ready_task quiet_body full_table (by decide) (by decide)⟩

/-- C7 at `sample_table`: the one READY record has the function 2. -/
theorem C7_runner_calls_in_registration_order_witness :
    sample_table.numberof_tasks ≤ NUMBER_OF_TASKS sample_table ∧
    ∃ s' calls, tsk_task_runner quiet_body sample_table = .ok (s', calls) ∧
      calls = [2] :=
  ⟨by decide,
    (C7_runner_calls_in_registration_order sample_table (by decide)).imp
      fun _ h => h.imp fun _ h2 => ⟨h2.1, h2.2.1.trans (by decide)⟩⟩

/-- C8 at `sample_table`, whose third slot is free. -/
theorem C8_create_stores_at_next_free_slot_witness :
    (sample_table.numberof_tasks < NUMBER_OF_TASKS sample_table ∧
      NUMBER_OF_TASKS sample_table ≤ 255) ∧
    ∃ s', tsk_task_create sample_table 5 PAUSED 4 = .ok s' ∧
      s'.task_array[2]? = some ⟨5, 4, 1, PAUSED⟩ ∧ s'.numberof_tasks = 3 :=
  ⟨⟨by decide, by decide⟩,
    (C8_create_stores_at_next_free_slot sample_table 5 PAUSED 4 (by decide) (by decide)).imp
      fun _ h => ⟨h.1, h.2.1, h.2.2.1⟩⟩

/-- C9 as amended, at `full_table`. -/
theorem C9_create_has_no_capacity_check_witness :
    full_table.numberof_tasks = NUMBER_OF_TASKS full_table ∧
    tsk_task_create full_table 7 READY 6 =
      .error (.out_of_bounds (NUMBER_OF_TASKS full_table)) :=
  ⟨by decide, (C9_create_has_no_capacity_check full_table 7 READY 6).1 (by decide)⟩

/-- C10 as amended, at `sample_table` and the function 7. -/
theorem C10_unregistered_function_uses_slot_at_length_witness :
    (sample_table.numberof_tasks ≤ NUMBER_OF_TASKS sample_table ∧
      ∀ t ∈ registered sample_table, t.run ≠ 7) ∧
    get_task_index sample_table 7 = .ok sample_table.numberof_tasks :=
  ⟨⟨by decide, by decide⟩,
    (C10_unregistered_function_uses_slot_at_length sample_table 7 (by decide) (by decide)).1⟩

/-! ## The setters on a registered task -/

/-- What a store of `x` into the slot `r` that `get_task_index` finds leaves
behind, when `x` keeps the `run` of the record there. -/
theorem slot_update_facts {s : Tasker} {f : TaskFunctionPtr} {r : Nat} {t : Task} (x : Task)
    (hidx : get_task_index s f = .ok r) (ht : s.task_array[r]? = some t)
    (hx : x.run = t.run) :
    get_task_index { s with task_array := s.task_array.set r x } f = .ok r ∧
    ({ s with task_array := s.task_array.set r x } : Tasker).task_array[r]? = some x ∧
    ∀ j, j ≠ r →
      ({ s with task_array := s.task_array.set r x } : Tasker).task_array[j]? =
        s.task_array[j]? := by
  refine ⟨(get_task_index_set x ht hx f).trans hidx, getElem?_set_self_of_some x ht,
    fun j hj => ?_⟩
  exact List.getElem?_set_ne (fun h => hj h.symm)

/-- C11: for a registered function `f` and any new state `st`,
`tsk_set_task_state(f, st)` returns; the record of `f` (the one the lookup
finds) gets state `st`, counter 1 when `st` is PAUSED and its old counter
otherwise, and keeps `run` and `period`; `numberof_tasks`, the number of slots
and every other slot are unchanged. -/
theorem C11_set_state_changes_state_and_pause_counter (s : Tasker) (f : TaskFunctionPtr)
    (st : TaskState) (hcap : s.numberof_tasks ≤ NUMBER_OF_TASKS s)
    (hreg : ∃ t ∈ registered s, t.run = f) :
    ∃ r t s', r < s.numberof_tasks ∧ get_task_index s f = .ok r ∧
      s.task_array[r]? = some t ∧ t.run = f ∧
      tsk_set_task_state s f st = .ok s' ∧
      s'.task_array[r]? = some
        { run := f, period := t.period, counter := (if st = PAUSED then 1 else t.counter),
          state := st } ∧
      tsk_get_task_state s' f = .ok st ∧
      tsk_get_task_counter s' f = .ok (if st = PAUSED then 1 else t.counter) ∧
      tsk_get_task_period s' f = .ok t.period ∧
      s'.numberof_tasks = s.numberof_tasks ∧
      NUMBER_OF_TASKS s' = NUMBER_OF_TASKS s ∧
      ∀ j, j ≠ r → s'.task_array[j]? = s.task_array[j]? := by
  simp only [NUMBER_OF_TASKS] at hcap ⊢
  obtain ⟨r, t, hidx, hr, ht, hf, _⟩ := get_task_index_of_registered s f hcap hreg
  obtain ⟨h1, h2, h3⟩ := slot_update_facts
    ⟨t.run, t.period, if st = PAUSED then 1 else t.counter, st⟩ hidx ht rfl
  have hgs := tsk_get_task_state_spec h1 h2
  have hgc := tsk_get_task_counter_spec h1 h2
  have hgp := tsk_get_task_period_spec h1 h2
  refine ⟨r, t, _, hr, hidx, ht, hf, tsk_set_task_state_spec hidx ht st, ?_,
    hgs, hgc, hgp, rfl, by simp, h3⟩
  rw [← hf]; exact h2

/-- C11 at `sample_table`: pausing the function 2. -/
theorem C11_set_state_changes_state_and_pause_counter_witness :
    (sample_table.numberof_tasks ≤ NUMBER_OF_TASKS sample_table ∧
      ∃ t ∈ registered sample_table, t.run = 2) ∧
    ∃ s', tsk_set_task_state sample_table 2 PAUSED = .ok s' ∧
      tsk_get_task_state s' 2 = .ok PAUSED :=
  ⟨⟨by decide, by decide⟩, by
    obtain ⟨_, _, s', _, _, _, _, h1, _, h2, _⟩ :=
      C11_set_state_changes_state_and_pause_counter sample_table 2 PAUSED
        (by decide) (by decide)
    exact ⟨s', h1, h2⟩⟩

/-- One tick does not change what `get_task_index` returns. -/
theorem get_task_index_tick (w : Nat) {s s' : Tasker}
    (hcap : s.numberof_tasks ≤ s.task_array.length)
    (h : tsk_task_time_manager w s = .ok s') (f : TaskFunctionPtr) :
    get_task_index s' f = get_task_index s f := by
  obtain ⟨s2, h1, h2, _, h4⟩ := tsk_task_time_manager_spec w s hcap
  rw [h] at h1
  cases h1
  refine get_task_index_congr h2 (fun j hj => ?_) f
  rw [h4 j, if_pos hj]
  cases s.task_array[j]? with
  | none => rfl
  | some t => simp [tick_record_run]

/-- C12: for a registered function `f` whose state is not PAUSED and a new
period `p` smaller than the counter of `f`, `tsk_set_task_period(f, p)` and one
call of `tsk_task_time_manager` return, and then `tsk_get_task_state(f)` is
READY and `tsk_get_task_counter(f)` is 1. -/
theorem C12_smaller_period_then_tick_makes_ready (w : Nat) (s : Tasker)
    (f : TaskFunctionPtr) (p c : Nat) (st : TaskState)
    (hcap : s.numberof_tasks ≤ NUMBER_OF_TASKS s)
    (hreg : ∃ t ∈ registered s, t.run = f)
    (hst : tsk_get_task_state s f = .ok st) (hnp : st ≠ PAUSED)
    (hc : tsk_get_task_counter s f = .ok c) (hpc : p < c) :
    ∃ s1 s2, tsk_set_task_period s f p = .ok s1 ∧ tsk_task_time_manager w s1 = .ok s2 ∧
      tsk_get_task_state s2 f = .ok READY ∧ tsk_get_task_counter s2 f = .ok 1 := by
  simp only [NUMBER_OF_TASKS] at hcap
  obtain ⟨r, t, hidx, hr, ht, _, _⟩ := get_task_index_of_registered s f hcap hreg
  rw [tsk_get_task_state_spec hidx ht] at hst
  rw [tsk_get_task_counter_spec hidx ht] at hc
  have hst' : t.state = st := by injection hst
  have hc' : t.counter = c := by injection hc
  obtain ⟨h1, h2, _⟩ := slot_update_facts ⟨t.run, p, t.counter, t.state⟩ hidx ht rfl
  obtain ⟨s2, k1, _, _, k4⟩ := tsk_task_time_manager_spec w
    { s with task_array := s.task_array.set r ⟨t.run, p, t.counter, t.state⟩ }
    (by simpa using hcap)
  have hidx2 : get_task_index s2 f = .ok r :=
    (get_task_index_tick w (by simpa using hcap) k1 f).trans h1
  have hrec : s2.task_array[r]? = some ⟨t.run, p, 1, READY⟩ := by
    rw [k4 r, if_pos hr, h2]
    have hge : t.counter ≥ p := by omega
    have hne : t.state ≠ PAUSED := by rw [hst']; exact hnp
    simp [tick_record, hne, hge]
  exact ⟨_, s2, tsk_set_task_period_spec hidx ht p, k1,
    tsk_get_task_state_spec hidx2 hrec, tsk_get_task_counter_spec hidx2 hrec⟩

/-- C12 at `sample_table`: the function 1 has counter 1, and its period is set
to 0. -/
theorem C12_smaller_period_then_tick_makes_ready_witness :
    (sample_table.numberof_tasks ≤ NUMBER_OF_TASKS sample_table ∧
      (∃ t ∈ registered sample_table, t.run = 1) ∧
      tsk_get_task_state sample_table 1 = .ok RUNNABLE ∧
      tsk_get_task_counter sample_table 1 = .ok 1) ∧
    ∃ s1 s2, tsk_set_task_period sample_table 1 0 = .ok s1 ∧
      tsk_task_time_manager 8 s1 = .ok s2 ∧
      tsk_get_task_state s2 1 = .ok READY ∧ tsk_get_task_counter s2 1 = .ok 1 :=
  ⟨⟨by decide, by decide, by decide, by decide⟩,
    C12_smaller_period_then_tick_makes_ready 8 sample_table 1 0 1 RUNNABLE
      (by decide) (by decide) (by decide) (by decide) (by decide) (by decide)⟩

/-- C13: for a registered function `f` and any value `v`, with no test of `v`:
`tsk_set_task_period(f, v)` returns and changes the period of the record of
`f` to `v` and nothing else, the counter included; `tsk_set_task_counter(f, v)`
returns and changes the counter of that record to `v` and nothing else.  In
both `numberof_tasks`, the number of slots and every other slot are
unchanged. -/
theorem C13_set_period_and_set_counter_change_one_field (s : Tasker)
    (f : TaskFunctionPtr) (v : Nat) (hcap : s.numberof_tasks ≤ NUMBER_OF_TASKS s)
    (hreg : ∃ t ∈ registered s, t.run = f) :
    ∃ r t, r < s.numberof_tasks ∧ get_task_index s f = .ok r ∧
      s.task_array[r]? = some t ∧ t.run = f ∧
      (∃ s', tsk_set_task_period s f v = .ok s' ∧
        s'.task_array[r]? =
          some { run := t.run, period := v, counter := t.counter, state := t.state } ∧
        s'.numberof_tasks = s.numberof_tasks ∧
        NUMBER_OF_TASKS s' = NUMBER_OF_TASKS s ∧
        ∀ j, j ≠ r → s'.task_array[j]? = s.task_array[j]?) ∧
      (∃ s', tsk_set_task_counter s f v = .ok s' ∧
        s'.task_array[r]? =
          some { run := t.run, period := t.period, counter := v, state := t.state } ∧
        s'.numberof_tasks = s.numberof_tasks ∧
        NUMBER_OF_TASKS s' = NUMBER_OF_TASKS s ∧
        ∀ j, j ≠ r → s'.task_array[j]? = s.task_array[j]?) := by
  simp only [NUMBER_OF_TASKS] at hcap ⊢
  obtain ⟨r, t, hidx, hr, ht, hf, _⟩ := get_task_index_of_registered s f hcap hreg
  obtain ⟨_, p2, p3⟩ := slot_update_facts ⟨t.run, v, t.counter, t.state⟩ hidx ht rfl
  obtain ⟨_, c2, c3⟩ := slot_update_facts ⟨t.run, t.period, v, t.state⟩ hidx ht rfl
  exact ⟨r, t, hr, hidx, ht, hf,
    ⟨_, tsk_set_task_period_spec hidx ht v, p2, rfl, by simp, p3⟩,
    ⟨_, tsk_set_task_counter_spec hidx ht v, c2, rfl, by simp, c3⟩⟩

/-- C13 at `sample_table`: the period of the function 1 is set to 0. -/
theorem C13_set_period_and_set_counter_change_one_field_witness :
    (sample_table.numberof_tasks ≤ NUMBER_OF_TASKS sample_table ∧
      ∃ t ∈ registered sample_table, t.run = 1) ∧
    ∃ r t, r < sample_table.numberof_tasks ∧ get_task_index sample_table 1 = .ok r ∧
      sample_table.task_array[r]? = some t ∧ t.run = 1 :=
  ⟨⟨by decide, by decide⟩, by
    obtain ⟨r, t, h1, h2, h3, h4, _⟩ :=
      C13_set_period_and_set_counter_change_one_field sample_table 1 0
        (by decide) (by decide)
    exact ⟨r, t, h1, h2, h3, h4⟩⟩

/-! ## Getters after setters and after registration -/

/-- After `tsk_task_create` of a function that no registered record has, in a
table with a free slot and a count that does not wrap, the lookup finds the new
record. -/
theorem get_task_index_after_create (s : Tasker) (f : TaskFunctionPtr)
    (st : TaskState) (p : TaskTime)
    (hroom : s.numberof_tasks < s.task_array.length) (hcfg : s.task_array.length ≤ 255)
    (hnot : ∀ t ∈ registered s, t.run ≠ f) :
    ∃ s', tsk_task_create s f st p = .ok s' ∧
      get_task_index s' f = .ok s.numberof_tasks ∧
      s'.task_array[s.numberof_tasks]? = some ⟨f, p, 1, st⟩ := by
  obtain ⟨s', h1, h2, h3⟩ := tsk_task_create_spec s f st p hroom
  have hn : s'.numberof_tasks = s.numberof_tasks + 1 := by
    rw [h3]; exact Nat.mod_eq_of_lt (by omega)
  have hget : s.task_array[s.numberof_tasks]? = some s.task_array[s.numberof_tasks] :=
    List.getElem?_eq_getElem hroom
  have hnew : s'.task_array[s.numberof_tasks]? = some ⟨f, p, 1, st⟩ := by
    rw [h2]; exact getElem?_set_self_of_some _ hget
  have hcap' : s'.numberof_tasks ≤ s'.task_array.length := by
    rw [hn, h2, List.length_set]; omega
  obtain ⟨r, k1, k2, k3, k4⟩ := get_task_index_spec s' f hcap'
  have hr : r = s.numberof_tasks := by
    by_contra hne
    by_cases hlt : r < s.numberof_tasks
    · obtain ⟨t, ht, hf⟩ := k4 (by omega)
      rw [h2, List.getElem?_set_ne (by omega)] at ht
      exact hnot t (mem_registered hlt ht) hf
    · exact k3 s.numberof_tasks _ (by omega) hnew rfl
  exact ⟨s', h1, by rw [k1, hr], hnew⟩

/-- C14: the getters read back what was last written.  For a registered
function `f`: after `tsk_set_task_counter(f, c)` the counter getter returns
`c`, after `tsk_set_task_period(f, p)` the period getter returns `p`, after
`tsk_set_task_state(f, st)` the state getter returns `st`.  For a function `f`
that no registered record has, in a table with a free slot (`NUMBER_OF_TASKS`
at most 255): after `tsk_task_create(f, st, p)` the three getters return `st`,
`p` and 1. -/
theorem C14_getters_read_back (s : Tasker) (f : TaskFunctionPtr)
    (hcap : s.numberof_tasks ≤ NUMBER_OF_TASKS s) :
    ((∃ t ∈ registered s, t.run = f) →
      (∀ c, ∃ s', tsk_set_task_counter s f c = .ok s' ∧
        tsk_get_task_counter s' f = .ok c) ∧
      (∀ p, ∃ s', tsk_set_task_period s f p = .ok s' ∧
        tsk_get_task_period s' f = .ok p) ∧
      (∀ st, ∃ s', tsk_set_task_state s f st = .ok s' ∧
        tsk_get_task_state s' f = .ok st)) ∧
    ((∀ t ∈ registered s, t.run ≠ f) → s.numberof_tasks < NUMBER_OF_TASKS s →
      NUMBER_OF_TASKS s ≤ 255 →
      ∀ st p, ∃ s', tsk_task_create s f st p = .ok s' ∧
        tsk_get_task_state s' f = .ok st ∧ tsk_get_task_period s' f = .ok p ∧
        tsk_get_task_counter s' f = .ok 1) := by
  simp only [NUMBER_OF_TASKS] at hcap ⊢
  constructor
  · intro hreg
    obtain ⟨r, t, hidx, _, ht, _, _⟩ := get_task_index_of_registered s f hcap hreg
    refine ⟨fun c => ?_, fun p => ?_, fun st => ?_⟩
    · obtain ⟨h1, h2, _⟩ := slot_update_facts ⟨t.run, t.period, c, t.state⟩ hidx ht rfl
      exact ⟨_, tsk_set_task_counter_spec hidx ht c, tsk_get_task_counter_spec h1 h2⟩
    · obtain ⟨h1, h2, _⟩ := slot_update_facts ⟨t.run, p, t.counter, t.state⟩ hidx ht rfl
      exact ⟨_, tsk_set_task_period_spec hidx ht p, tsk_get_task_period_spec h1 h2⟩
    · obtain ⟨h1, h2, _⟩ := slot_update_facts
        ⟨t.run, t.period, if st = PAUSED then 1 else t.counter, st⟩ hidx ht rfl
      exact ⟨_, tsk_set_task_state_spec hidx ht st, tsk_get_task_state_spec h1 h2⟩
  · intro hnot hroom hcfg st p
    obtain ⟨s', h1, h2, h3⟩ := get_task_index_after_create s f st p hroom hcfg hnot
    exact ⟨s', h1, tsk_get_task_state_spec h2 h3, tsk_get_task_period_spec h2 h3,
      tsk_get_task_counter_spec h2 h3⟩

/-- C14 at `sample_table`: the function 1 is registered, the function 5 is not. -/
theorem C14_getters_read_back_witness :
    (sample_table.numberof_tasks ≤ NUMBER_OF_TASKS sample_table ∧
      (∃ t ∈ registered sample_table, t.run = 1) ∧
      (∀ t ∈ registered sample_table, t.run ≠ 5) ∧
      sample_table.numberof_tasks < NUMBER_OF_TASKS sample_table ∧
      NUMBER_OF_TASKS sample_table ≤ 255) ∧
    (∃ s', tsk_set_task_counter sample_table 1 9 = .ok s' ∧
      tsk_get_task_counter s' 1 = .ok 9) ∧
    ∃ s', tsk_task_create sample_table 5 PAUSED 4 = .ok s' ∧
      tsk_get_task_state s' 5 = .ok PAUSED ∧ tsk_get_task_period s' 5 = .ok 4 ∧
      tsk_get_task_counter s' 5 = .ok 1 :=
  ⟨⟨by decide, by decide, by decide, by decide, by decide⟩,
    ((C14_getters_read_back sample_table 1 (by decide)).1 (by decide)).1 9,
    (C14_getters_read_back sample_table 5 (by decide)).2
      (by decide) (by decide) (by decide) PAUSED 4⟩

/-! ## The range of the counter -/

/-- The predicate `counter_in_range` passes from `s` to `s'` when the count is
the same and every registered record of `s'` comes from the record of `s` at
the same index by a step that keeps the range. -/
theorem counter_in_range_of_pointwise (s s' : Tasker)
    (hn : s'.numberof_tasks = s.numberof_tasks)
    (hstep : ∀ j t', j < s.numberof_tasks → s'.task_array[j]? = some t' →
      ∃ t, s.task_array[j]? = some t ∧
        (1 ≤ t.counter ∧ t.counter ≤ t.period → 1 ≤ t'.counter ∧ t'.counter ≤ t'.period))
    (hinv : counter_in_range s) : counter_in_range s' := by
  intro t' ht'
  obtain ⟨j, hj, hget⟩ := exists_of_mem_registered ht'
  rw [hn] at hj
  obtain ⟨t, ht, himp⟩ := hstep j t' hj hget
  exact himp (hinv t (mem_registered hj ht))

theorem tick_record_in_range (w : Nat) (t : Task) (hw : t.period < 2 ^ w)
    (h : 1 ≤ t.counter ∧ t.counter ≤ t.period) :
    1 ≤ (tick_record w t).counter ∧ (tick_record w t).counter ≤ (tick_record w t).period := by
  unfold tick_record
  split_ifs with h1 h2
  · exact h
  · simp only; omega
  · have hlt : t.counter + 1 < 2 ^ w := by omega
    simp only [Nat.mod_eq_of_lt hlt]; omega

theorem counter_in_range_create (s : Tasker) (f : TaskFunctionPtr) (st : TaskState)
    (p : Nat) (hp : 1 ≤ p) (hinv : counter_in_range s) (s' : Tasker)
    (h : tsk_task_create s f st p = .ok s') : counter_in_range s' := by
  by_cases hroom : s.numberof_tasks < s.task_array.length
  · obtain ⟨s2, h1, h2, h3⟩ := tsk_task_create_spec s f st p hroom
    rw [h] at h1
    cases h1
    have hlt := s.numberof_tasks_lt
    have hget : s.task_array[s.numberof_tasks]? = some s.task_array[s.numberof_tasks] :=
      List.getElem?_eq_getElem hroom
    intro t' ht'
    obtain ⟨j, hj, hgetj⟩ := exists_of_mem_registered ht'
    rw [h3] at hj
    rw [h2] at hgetj
    have hj' : j < s.numberof_tasks + 1 := by omega
    by_cases hjn : j = s.numberof_tasks
    · subst hjn
      rw [getElem?_set_self_of_some _ hget] at hgetj
      cases hgetj
      exact ⟨le_refl 1, hp⟩
    · rw [List.getElem?_set_ne (fun h => hjn h.symm)] at hgetj
      exact hinv t' (mem_registered (by omega) hgetj)
  · rw [tsk_task_create_full s f st p (by omega)] at h
    cases h

theorem counter_in_range_set_state (s : Tasker) (f : TaskFunctionPtr) (st : TaskState)
    (hcap : s.numberof_tasks ≤ s.task_array.length) (hinv : counter_in_range s)
    (s' : Tasker) (h : tsk_set_task_state s f st = .ok s') : counter_in_range s' := by
  obtain ⟨r, hidx, _, _, _⟩ := get_task_index_spec s f hcap
  cases hr : s.task_array[r]? with
  | none =>
    have hle : s.task_array.length ≤ r := List.getElem?_eq_none_iff.mp hr
    rw [(accessors_out_of_bounds hidx hle).2.2.2.1 st] at h
    cases h
  | some t =>
    rw [tsk_set_task_state_spec hidx hr st] at h
    cases h
    refine counter_in_range_of_pointwise s _ rfl (fun j t' hj hget => ?_) hinv
    by_cases hjr : j = r
    · subst hjr
      simp only [getElem?_set_self_of_some _ hr] at hget
      cases hget
      refine ⟨t, hr, fun hrange => ?_⟩
      by_cases hp : st = PAUSED
      · simp only [hp, if_true]; omega
      · simp only [hp, if_false]; exact hrange
    · simp only [List.getElem?_set_ne (fun h => hjr h.symm)] at hget
      exact ⟨t', hget, fun hrange => hrange⟩

/-- C15: `counter_in_range`, every registered record has
`1 <= counter <= period`, is kept by the automatic lifecycle.  From a table
where it holds: every `tsk_task_create` with a period of at least 1 that
returns leaves it true, and the call returns when a slot is free;
`tsk_task_time_manager` returns and leaves it true (periods are values of the
`w`-bit time type); `tsk_task_runner` with bodies that leave the table alone
returns and leaves it true; every `tsk_set_task_state` that returns leaves it
true, and the call returns for a registered function. -/
theorem C15_counter_range_is_kept (w : Nat) (s : Tasker)
    (hcap : s.numberof_tasks ≤ NUMBER_OF_TASKS s) (hinv : counter_in_range s) :
    (∀ f st p, 1 ≤ p →
      (∀ s', tsk_task_create s f st p = .ok s' → counter_in_range s') ∧
      (s.numberof_tasks < NUMBER_OF_TASKS s → ∃ s', tsk_task_create s f st p = .ok s')) ∧
    ((∀ t ∈ registered s, t.period < 2 ^ w) →
      ∃ s', tsk_task_time_manager w s = .ok s' ∧ counter_in_range s') ∧
    (∃ s' calls, tsk_task_runner quiet_body s = .ok (s', calls) ∧ counter_in_range s') ∧
    (∀ f st,
      (∀ s', tsk_set_task_state s f st = .ok s' → counter_in_range s') ∧
      ((∃ t ∈ registered s, t.run = f) → ∃ s', tsk_set_task_state s f st = .ok s')) := by
  simp only [NUMBER_OF_TASKS] at hcap ⊢
  refine ⟨fun f st p hp => ⟨counter_in_range_create s f st p hp hinv, fun hroom => ?_⟩,
    fun htime => ?_, ?_, fun f st => ⟨counter_in_range_set_state s f st hcap hinv,
      fun hreg => ?_⟩⟩
  · obtain ⟨s', h1, _⟩ := tsk_task_create_spec s f st p hroom
    exact ⟨s', h1⟩
  · obtain ⟨s', h1, h2, _, h4⟩ := tsk_task_time_manager_spec w s hcap
    refine ⟨s', h1, counter_in_range_of_pointwise s s' h2 (fun j t' hj hget => ?_) hinv⟩
    rw [h4 j, if_pos hj] at hget
    cases hsj : s.task_array[j]? with
    | none => rw [hsj] at hget; cases hget
    | some t =>
      rw [hsj] at hget
      cases hget
      exact ⟨t, rfl, tick_record_in_range w t (htime t (mem_registered hj hsj))⟩
  · obtain ⟨s', h1, h2, _, h4⟩ := tsk_task_runner_quiet_spec s hcap
    refine ⟨s', _, h1, counter_in_range_of_pointwise s s' h2 (fun j t' hj hget => ?_) hinv⟩
    rw [h4 j, if_pos hj] at hget
    cases hsj : s.task_array[j]? with
    | none => rw [hsj] at hget; cases hget
    | some t =>
      rw [hsj] at hget
      cases hget
      refine ⟨t, rfl, fun hrange => ?_⟩
      unfold dispatch_record
      split_ifs <;> exact hrange
  · obtain ⟨r, t, hidx, _, ht, _, _⟩ := get_task_index_of_registered s f hcap hreg
    exact ⟨_, tsk_set_task_state_spec hidx ht st⟩

/-- C15 at `sample_table`, where both registered records are in range. -/
theorem C15_counter_range_is_kept_witness :
    (sample_table.numberof_tasks ≤ NUMBER_OF_TASKS sample_table ∧
      counter_in_range sample_table ∧
      ∀ t ∈ registered sample_table, t.period < 2 ^ 8) ∧
    ∃ s', tsk_task_time_manager 8 sample_table = .ok s' ∧ counter_in_range s' :=
  ⟨⟨by decide, by decide, by decide⟩,
    (C15_counter_range_is_kept 8 sample_table (by decide) (by decide)).2.1 (by decide)⟩

/-! ## Ticks interleaved with passes of the runner -/

theorem succ_mod_cases (m p : Nat) (hp : 1 ≤ p) :
    (m % p + 1 = p ∧ (m + 1) % p = 0) ∨ (m % p + 1 < p ∧ (m + 1) % p = m % p + 1) := by
  have hlt : m % p < p := Nat.mod_lt m hp
  have hrew : (m + 1) % p = (m % p + 1) % p := by
    conv_lhs => rw [← Nat.mod_add_div m p]
    rw [show m % p + p * (m / p) + 1 = m % p + 1 + p * (m / p) by omega,
      Nat.add_mul_mod_self_left]
  by_cases h : m % p + 1 = p
  · left
    refine ⟨h, ?_⟩
    rw [hrew, h, Nat.mod_self]
  · right
    have h2 : m % p + 1 < p := by omega
    exact ⟨h2, by rw [hrew, Nat.mod_eq_of_lt h2]⟩

/-- One tick on a record that is not PAUSED and whose counter is `m % p + 1`,
`p` its period: the counter becomes `(m + 1) % p + 1`, the state READY when
`p` divides `m + 1` and is kept otherwise. -/
theorem tick_record_cycle (w : Nat) (t : Task) (m : Nat) (hp : 1 ≤ t.period)
    (hw : t.period < 2 ^ w) (hs : t.state ≠ PAUSED) (hc : t.counter = m % t.period + 1) :
    (tick_record w t).counter = (m + 1) % t.period + 1 ∧
    ((m + 1) % t.period = 0 ↔ t.counter ≥ t.period) ∧
    ((m + 1) % t.period = 0 → (tick_record w t).state = READY) ∧
    ((m + 1) % t.period ≠ 0 → (tick_record w t).state = t.state) ∧
    (tick_record w t).state ≠ PAUSED := by
  rcases succ_mod_cases m t.period hp with ⟨h1, h2⟩ | ⟨h1, h2⟩
  · have hge : t.counter ≥ t.period := by omega
    simp [tick_record, hs, hge, h2]
  · have hnge : ¬ t.counter ≥ t.period := by omega
    have hmod : (t.counter + 1) % 2 ^ w = t.counter + 1 := Nat.mod_eq_of_lt (by omega)
    have hne : (m + 1) % t.period ≠ 0 := by omega
    have htick : tick_record w t = { t with counter := t.counter + 1 } := by
      simp [tick_record, hs, hnge, hmod]
    rw [htick]
    exact ⟨by simp only; omega, ⟨fun h => absurd h hne, fun h => absurd h hnge⟩,
      fun h => absurd h hne, fun _ => rfl, hs⟩

/-- A schedule of ticks and runner passes on a record that is not PAUSED and
whose counter is `m % p + 1`: the schedule returns, the record keeps `run` and
`period`, is not PAUSED, and its counter has advanced by the number of ticks. -/
theorem perform_cycle (w : Nat) (i : Nat) (f : TaskFunctionPtr) (p : Nat) (hp : 1 ≤ p)
    (hw : p < 2 ^ w) :
    ∀ (steps : List Step) (s : Tasker) (t : Task) (m : Nat),
      s.numberof_tasks ≤ s.task_array.length → i < s.numberof_tasks →
      s.task_array[i]? = some t → t.run = f → t.period = p → t.state ≠ PAUSED →
      t.counter = m % p + 1 →
      ∃ s1 t1, perform w steps s = .ok s1 ∧
        s1.numberof_tasks = s.numberof_tasks ∧
        s1.task_array.length = s.task_array.length ∧
        s1.task_array[i]? = some t1 ∧ t1.run = f ∧ t1.period = p ∧
        t1.state ≠ PAUSED ∧ t1.counter = (m + steps.count Step.tick) % p + 1 := by
  intro steps
  induction steps with
  | nil =>
    intro s t m _ _ ht hf hper hs hc
    exact ⟨s, t, rfl, rfl, rfl, ht, hf, hper, hs, by simpa using hc⟩
  | cons a rest ih =>
    intro s t m hcap hi ht hf hper hs hc
    cases a with
    | tick =>
      obtain ⟨s1, h1, h2, h3, h4⟩ := tsk_task_time_manager_spec w s hcap
      have hrec : s1.task_array[i]? = some (tick_record w t) := by
        rw [h4 i, if_pos hi, ht]; rfl
      obtain ⟨c1, _, _, _, c5⟩ :=
        tick_record_cycle w t m (by omega) (by omega) hs (by rw [hper]; exact hc)
      obtain ⟨s2, t2, k1, k2, k3, k4, k5, k6, k7, k8⟩ :=
        ih s1 (tick_record w t) (m + 1) (by omega) (by omega) hrec
          ((tick_record_run w t).trans hf) ((tick_record_period w t).trans hper) c5
          (by rw [c1, hper])
      refine ⟨s2, t2, by simp [perform, h1, k1], by omega, by omega, k4, k5, k6, k7, ?_⟩
      rw [k8, List.count_cons_self]
      congr 2
      omega
    | run =>
      obtain ⟨s1, h1, h2, h3, h4⟩ := tsk_task_runner_quiet_spec s hcap
      have hrec : s1.task_array[i]? = some (dispatch_record t) := by
        rw [h4 i, if_pos hi, ht]; rfl
      have hd : (dispatch_record t).run = t.run ∧ (dispatch_record t).period = t.period ∧
          (dispatch_record t).counter = t.counter ∧ (dispatch_record t).state ≠ PAUSED := by
        unfold dispatch_record
        split_ifs <;> simp [hs]
      obtain ⟨s2, t2, k1, k2, k3, k4, k5, k6, k7, k8⟩ :=
        ih s1 (dispatch_record t) m (by omega) (by omega) hrec
          (hd.1.trans hf) (hd.2.1.trans hper) hd.2.2.2 (hd.2.2.1.trans hc)
      refine ⟨s2, t2, by simp [perform, h1, k1], by omega, by omega, k4, k5, k6, k7, ?_⟩
      rw [k8, List.count_cons_of_ne (by decide)]

/-- C16: a registered record that is not PAUSED, with period `p >= 1` (a value
of the `w`-bit time type) and counter 1, under any schedule of ticks and runner
passes (bodies that leave the table alone, no setter): the schedule returns and
after it the counter is `n % p + 1`, `n` the number of ticks in it.  The tick
that follows, the `(n + 1)`-th, returns; it takes the branch that assigns READY
exactly when `p` divides `n + 1`, so the record is READY after it when `p`
divides `n + 1` and keeps its state otherwise, and the counter is
`(n + 1) % p + 1`. -/
theorem C16_counter_cycles_with_the_period (w : Nat) (s : Tasker) (i : Nat) (t : Task)
    (steps : List Step)
    (hcap : s.numberof_tasks ≤ NUMBER_OF_TASKS s) (hi : i < s.numberof_tasks)
    (ht : s.task_array[i]? = some t) (hp : 1 ≤ t.period) (hw : t.period < 2 ^ w)
    (hc : t.counter = 1) (hs : t.state ≠ PAUSED) :
    ∃ s1 t1 s2 t2, perform w steps s = .ok s1 ∧ s1.task_array[i]? = some t1 ∧
      t1.counter = steps.count Step.tick % t.period + 1 ∧
      tsk_task_time_manager w s1 = .ok s2 ∧ s2.task_array[i]? = some t2 ∧
      t2.counter = (steps.count Step.tick + 1) % t.period + 1 ∧
      ((t1.state ≠ PAUSED ∧ t1.counter ≥ t1.period) ↔
        (steps.count Step.tick + 1) % t.period = 0) ∧
      ((steps.count Step.tick + 1) % t.period = 0 → t2.state = READY) ∧
      ((steps.count Step.tick + 1) % t.period ≠ 0 → t2.state = t1.state) := by
  simp only [NUMBER_OF_TASKS] at hcap
  obtain ⟨s1, t1, h1, h2, h3, h4, _, h6, h7, h8⟩ :=
    perform_cycle w i t.run t.period hp hw steps s t 0 hcap hi ht rfl rfl hs
      (by rw [hc, Nat.zero_mod])
  rw [Nat.zero_add] at h8
  obtain ⟨s2, k1, _, _, k4⟩ := tsk_task_time_manager_spec w s1 (by omega)
  have hrec : s2.task_array[i]? = some (tick_record w t1) := by
    rw [k4 i, if_pos (by omega), h4]; rfl
  obtain ⟨c1, c2, c3, c4, _⟩ := tick_record_cycle w t1 (steps.count Step.tick)
    (by omega) (by omega) h7 (by rw [h6]; exact h8)
  rw [h6] at c1 c2 c3 c4
  refine ⟨s1, t1, s2, tick_record w t1, h1, h4, h8, k1, hrec, c1, ?_, c3, c4⟩
  rw [h6]
  exact ⟨fun h => c2.mpr h.2, fun h => ⟨h7, c2.mp h⟩⟩

/-- C16 at the first record of `sample_table` (period 3) and the schedule tick,
runner, tick: the counter is 3 after it and the third tick makes the record
READY with counter 1. -/
theorem C16_counter_cycles_with_the_period_witness :
    (sample_table.numberof_tasks ≤ NUMBER_OF_TASKS sample_table ∧
      sample_table.task_array[0]? = some ⟨1, 3, 1, RUNNABLE⟩) ∧
    ∃ s1 t1 s2 t2, perform 8 [Step.tick, Step.run, Step.tick] sample_table = .ok s1 ∧
      s1.task_array[0]? = some t1 ∧ t1.counter = 3 ∧
      tsk_task_time_manager 8 s1 = .ok s2 ∧ s2.task_array[0]? = some t2 ∧
      t2.counter = 1 ∧ t2.state = READY :=
  ⟨⟨by decide, by decide⟩, by
    obtain ⟨s1, t1, s2, t2, h1, h2, h3, h4, h5, h6, _, h8, _⟩ :=
      C16_counter_cycles_with_the_period 8 sample_table 0 ⟨1, 3, 1, RUNNABLE⟩
        [Step.tick, Step.run, Step.tick] (by decide) (by decide) (by decide) (by decide)
        (by decide) rfl (by decide)
    exact ⟨s1, t1, s2, t2, h1, h2, h3, h4, h5, h6, h8 (by decide)⟩⟩

/-! ## Task bodies that call a setter -/

theorem runner_loop_step_ready (body : TaskFunctionPtr → Tasker → Except Fault Tasker)
    (fuel k : Nat) (s : Tasker) (t : Task) (hk : k < s.numberof_tasks)
    (ht : s.task_array[k]? = some t) (hr : t.state = READY) :
    tsk_task_runner_loop body (fuel + 1) k s =
      match body t.run
        { s with task_array := s.task_array.set k ⟨t.run, t.period, t.counter, RUNNABLE⟩ } with
      | .error e => .error e
      | .ok s2 =>
        match tsk_task_runner_loop body fuel (k + 1) s2 with
        | .error e => .error e
        | .ok (s3, calls) => .ok (s3, t.run :: calls) := by
  have hn := s.numberof_tasks_lt
  have hmod : (k + 1) % 256 = k + 1 := Nat.mod_eq_of_lt (by omega)
  have hstore : store s k (fun t => { t with state := RUNNABLE }) =
      .ok { s with task_array := s.task_array.set k ⟨t.run, t.period, t.counter, RUNNABLE⟩ } :=
    store_of_getElem? _ ht
  have hload : load
      { s with task_array := s.task_array.set k ⟨t.run, t.period, t.counter, RUNNABLE⟩ } k =
      .ok ⟨t.run, t.period, t.counter, RUNNABLE⟩ :=
    load_of_getElem? (getElem?_set_self_of_some _ ht)
  rw [tsk_task_runner_loop]
  simp only [hk, if_true, load_of_getElem? ht, hr, hstore, hload, hmod]

theorem runner_loop_step_skip (body : TaskFunctionPtr → Tasker → Except Fault Tasker)
    (fuel k : Nat) (s : Tasker) (t : Task) (hk : k < s.numberof_tasks)
    (ht : s.task_array[k]? = some t) (hr : t.state ≠ READY) :
    tsk_task_runner_loop body (fuel + 1) k s = tsk_task_runner_loop body fuel (k + 1) s := by
  have hn := s.numberof_tasks_lt
  have hmod : (k + 1) % 256 = k + 1 := Nat.mod_eq_of_lt (by omega)
  rw [tsk_task_runner_loop]
  simp only [hk, if_true, load_of_getElem? ht, hr, if_false, hmod]

/-- From an index on after which no registered record has the function
`caller`, the loop of the runner with `ready_setting_body` is the loop with
bodies that leave the table alone. -/
theorem runner_loop_quiet_after (fa fb : TaskFunctionPtr) :
    ∀ (fuel k : Nat) (s : Tasker), s.numberof_tasks ≤ s.task_array.length →
      (∀ m t, k ≤ m → m < s.numberof_tasks → s.task_array[m]? = some t → t.run ≠ fa) →
      tsk_task_runner_loop (ready_setting_body fa fb) fuel k s =
        tsk_task_runner_loop quiet_body fuel k s := by
  intro fuel
  induction fuel with
  | zero => intro k s _ _; rfl
  | succ fuel ih =>
    intro k s hcap hfa
    by_cases hk : k < s.numberof_tasks
    · have hlen : k < s.task_array.length := by omega
      have hget : s.task_array[k]? = some s.task_array[k] := List.getElem?_eq_getElem hlen
      by_cases hr : s.task_array[k].state = READY
      · have hne : s.task_array[k].run ≠ fa := hfa k _ (le_refl k) hk hget
        rw [runner_loop_step_ready _ fuel k s _ hk hget hr,
          runner_loop_step_ready _ fuel k s _ hk hget hr]
        simp only [ready_setting_body, hne, if_false, quiet_body]
        rw [ih (k + 1) _ (by simpa using hcap)]
        intro m t hkm hm hmt
        rw [List.getElem?_set_ne (by omega)] at hmt
        exact hfa m t (by omega) hm hmt
      · rw [runner_loop_step_skip _ fuel k s _ hk hget hr,
          runner_loop_step_skip _ fuel k s _ hk hget hr]
        exact ih (k + 1) s hcap (fun m t hkm => hfa m t (by omega))
    · rw [tsk_task_runner_loop, tsk_task_runner_loop]
      simp only [hk, if_false]

/-- The lookup finds the index `j` when the record there has the function and
no record before it has. -/
theorem get_task_index_eq_of_first (s : Tasker) (f : TaskFunctionPtr) (j : Nat) (b : Task)
    (hcap : s.numberof_tasks ≤ s.task_array.length) (hj : j < s.numberof_tasks)
    (hb : s.task_array[j]? = some b) (hrun : b.run = f)
    (hfirst : ∀ m t, m < j → s.task_array[m]? = some t → t.run ≠ f) :
    get_task_index s f = .ok j := by
  obtain ⟨r, h1, _, h3, h4⟩ := get_task_index_spec s f hcap
  have hrj : r ≤ j := by
    by_contra hlt
    exact h3 j b (by omega) hb hrun
  obtain ⟨t, ht, hf⟩ := h4 (by omega)
  have hjr : ¬ r < j := fun hlt => hfirst r t hlt ht hf
  have : r = j := by omega
  rw [h1, this]

theorem drop_take_set_le (l : List Task) (j i n : Nat) (hj : j ≤ i) (x : Task) :
    ((l.set j x).take n).drop (i + 1) = (l.take n).drop (i + 1) := by
  apply List.ext_getElem?
  intro k
  simp only [List.getElem?_drop, List.getElem?_take]
  split
  · rw [List.getElem?_set_ne (by omega)]
  · rfl

theorem drop_take_cons_of_getElem? (l : List Task) (i n : Nat) (x : Task) (hi : i < n)
    (h : l[i]? = some x) : (l.take n).drop i = x :: (l.take n).drop (i + 1) := by
  obtain ⟨hl, hx⟩ := List.getElem?_eq_some.mp h
  rw [drop_take_cons l i n hi hl, hx]

/-- The step of the runner at the record of `caller`, which is READY: the
record becomes RUNNABLE, the body makes the record of `target` READY, and the
rest of the pass is one with bodies that leave the table alone. -/
theorem runner_loop_at_caller (fa fb : TaskFunctionPtr) (fuel i j : Nat) (s : Tasker)
    (a b : Task) (hcap : s.numberof_tasks ≤ s.task_array.length)
    (hi : i < s.numberof_tasks) (hj : j < s.numberof_tasks)
    (ha : s.task_array[i]? = some a) (hfa : a.run = fa) (hra : a.state = READY)
    (hb : s.task_array[j]? = some b) (hfb : b.run = fb)
    (hothers : ∀ m t, m < s.numberof_tasks → m ≠ i → s.task_array[m]? = some t → t.run ≠ fa)
    (hfirst : ∀ m t, m < j → s.task_array[m]? = some t → t.run ≠ fb) :
    tsk_task_runner_loop (ready_setting_body fa fb) (fuel + 1) i s =
      match tsk_task_runner_loop quiet_body fuel (i + 1)
        { s with task_array :=
          ((s.task_array.set i ⟨a.run, a.period, a.counter, RUNNABLE⟩).set j
            ⟨b.run, b.period, b.counter, READY⟩) } with
      | .error e => .error e
      | .ok (s3, calls) => .ok (s3, a.run :: calls) := by
  rw [runner_loop_step_ready _ fuel i s a hi ha hra]
  simp only [ready_setting_body, hfa, if_true]
  -- the record at `j` after the store at `i`
  have hbj : ∃ bj, (s.task_array.set i ⟨fa, a.period, a.counter, RUNNABLE⟩)[j]? = some bj ∧
      bj.run = fb ∧ bj.period = b.period ∧ bj.counter = b.counter := by
    by_cases hji : j = i
    · subst hji
      rw [ha] at hb
      cases hb
      exact ⟨_, getElem?_set_self_of_some _ ha, by rw [← hfa, hfb], rfl, rfl⟩
    · exact ⟨b, by rw [List.getElem?_set_ne (fun h => hji h.symm), hb], hfb, rfl, rfl⟩
  obtain ⟨bj, hbj1, hbj2, hbj3, hbj4⟩ := hbj
  have hidx : get_task_index
      { s with task_array := s.task_array.set i ⟨fa, a.period, a.counter, RUNNABLE⟩ } fb =
      .ok j := by
    refine get_task_index_eq_of_first _ fb j bj (by simpa using hcap) hj hbj1 hbj2 ?_
    intro m t hm hmt
    by_cases hmi : m = i
    · subst hmi
      simp only [getElem?_set_self_of_some _ ha] at hmt
      cases hmt
      have := hfirst m a hm ha
      rw [hfa] at this
      exact this
    · simp only [List.getElem?_set_ne (fun h => hmi h.symm)] at hmt
      exact hfirst m t hm hmt
  rw [tsk_set_task_state_spec hidx hbj1 READY]
  simp only [hbj2, hbj3, hbj4, hfb, reduceCtorEq, if_false]
  rw [runner_loop_quiet_after fa fb fuel (i + 1) _ (by simpa using hcap)]
  intro m t him hm hmt
  simp only at hmt hm
  by_cases hmj : m = j
  · subst hmj
    have hlen : m < (s.task_array.set i ⟨fa, a.period, a.counter, RUNNABLE⟩).length := by
      rw [List.length_set]; omega
    rw [List.getElem?_set, if_pos rfl, if_pos hlen] at hmt
    cases hmt
    have := hothers m b hm (by omega) hb
    rw [hfb] at this
    exact this
  · rw [List.getElem?_set_ne (fun h => hmj h.symm),
      List.getElem?_set_ne (by omega)] at hmt
    exact hothers m t hm (by omega) hmt

theorem calls_from_cons (l : List Task) (k n : Nat) (t : Task) (hk : k < n)
    (h : l[k]? = some t) :
    (((l.take n).drop k).filter (fun t => t.state = READY)).map Task.run =
      (if t.state = READY then [t.run] else []) ++
        (((l.take n).drop (k + 1)).filter (fun t => t.state = READY)).map Task.run := by
  rw [drop_take_cons_of_getElem? l k n t hk h]
  by_cases hr : t.state = READY <;> simp [List.filter_cons, hr]

/-- A pass of the runner in which the body of the READY record at `i` makes the
record at a later index `j` READY: the calls are those of a pass with quiet
bodies over the table with the record at `j` READY, and the record at `j` ends
RUNNABLE. -/
theorem runner_forward_later (fa fb : TaskFunctionPtr) (i j : Nat) (hij : i < j) :
    ∀ (fuel k : Nat) (s : Tasker) (a b : Task), 256 ≤ fuel + k → k ≤ i →
      j < s.numberof_tasks → s.numberof_tasks ≤ s.task_array.length →
      s.task_array[i]? = some a → a.run = fa → a.state = READY →
      s.task_array[j]? = some b → b.run = fb →
      (∀ m t, m < s.numberof_tasks → m ≠ i → s.task_array[m]? = some t → t.run ≠ fa) →
      (∀ m t, m < j → s.task_array[m]? = some t → t.run ≠ fb) →
      ∃ s', tsk_task_runner_loop (ready_setting_body fa fb) fuel k s =
          .ok (s', ((((s.task_array.set j ⟨b.run, b.period, b.counter, READY⟩).take
            s.numberof_tasks).drop k).filter (fun t => t.state = READY)).map Task.run) ∧
        s'.task_array[j]? = some ⟨b.run, b.period, b.counter, RUNNABLE⟩ := by
  intro fuel
  induction fuel with
  | zero =>
    intro k s a b h1 h2 h3
    have := s.numberof_tasks_lt
    omega
  | succ fuel ih =>
    intro k s a b hfuel hki hj hcap ha hfa hra hb hfb hothers hfirst
    have hn := s.numberof_tasks_lt
    by_cases hk : k = i
    · subst hk
      rw [runner_loop_at_caller fa fb fuel k j s a b hcap (by omega) hj ha hfa hra hb hfb
        hothers hfirst]
      obtain ⟨s', hs', _, _, hj'⟩ := tsk_task_runner_loop_quiet_spec fuel (k + 1)
        { s with task_array :=
          ((s.task_array.set k ⟨a.run, a.period, a.counter, RUNNABLE⟩).set j
            ⟨b.run, b.period, b.counter, READY⟩) }
        (by omega) (by show k + 1 ≤ s.numberof_tasks; omega) (by simpa using hcap)
      rw [hs']
      refine ⟨s', ?_, ?_⟩
      · have hak : (s.task_array.set j ⟨b.run, b.period, b.counter, READY⟩)[k]? = some a := by
          rw [List.getElem?_set_ne (by omega), ha]
        rw [calls_from_cons _ k s.numberof_tasks a (by omega) hak]
        simp only [hra, if_true, List.singleton_append]
        rw [List.set_comm _ _ _ (by omega : k ≠ j), drop_take_set]
      · rw [hj' j]
        have hlen : j < (s.task_array.set k ⟨a.run, a.period, a.counter, RUNNABLE⟩).length := by
          rw [List.length_set]; omega
        have hcond : k + 1 ≤ j ∧ j < s.numberof_tasks := ⟨by omega, hj⟩
        simp only [hcond, and_self, if_true]
        rw [List.getElem?_set, if_pos rfl, if_pos hlen]
        simp [dispatch_record]
    · have hklt : k < s.numberof_tasks := by omega
      have hlen : k < s.task_array.length := by omega
      have hget : s.task_array[k]? = some s.task_array[k] := List.getElem?_eq_getElem hlen
      have hgetj : (s.task_array.set j ⟨b.run, b.period, b.counter, READY⟩)[k]? =
          some s.task_array[k] := by
        rw [List.getElem?_set_ne (by omega), hget]
      rw [calls_from_cons _ k s.numberof_tasks _ hklt hgetj]
      by_cases hr : s.task_array[k].state = READY
      · have hne : s.task_array[k].run ≠ fa := hothers k _ hklt hk hget
        rw [runner_loop_step_ready _ fuel k s _ hklt hget hr]
        simp only [ready_setting_body, hne, if_false]
        obtain ⟨s', hs', hj'⟩ := ih (k + 1)
          { s with task_array := (s.task_array.set k
            ⟨s.task_array[k].run, s.task_array[k].period, s.task_array[k].counter, RUNNABLE⟩) }
          a b (by omega) (by omega) hj (by simpa using hcap)
          (by rw [List.getElem?_set_ne (by omega), ha]) hfa hra
          (by rw [List.getElem?_set_ne (by omega), hb]) hfb
          (fun m t hm hmi hmt => by
            by_cases hmk : m = k
            · subst hmk
              simp only [getElem?_set_self_of_some _ hget] at hmt
              cases hmt
              exact hne
            · simp only [List.getElem?_set_ne (fun h => hmk h.symm)] at hmt
              exact hothers m t hm hmi hmt)
          (fun m t hm hmt => by
            by_cases hmk : m = k
            · subst hmk
              simp only [getElem?_set_self_of_some _ hget] at hmt
              cases hmt
              exact hfirst m s.task_array[m] hm hget
            · simp only [List.getElem?_set_ne (fun h => hmk h.symm)] at hmt
              exact hfirst m t hm hmt)
        simp only at hs'
        rw [List.set_comm _ _ _ (by omega : k ≠ j), drop_take_set] at hs'
        rw [hs']
        exact ⟨s', by simp [hr], hj'⟩
      · rw [runner_loop_step_skip _ fuel k s _ hklt hget hr]
        obtain ⟨s', hs', hj'⟩ := ih (k + 1) s a b (by omega) (by omega) hj hcap ha hfa hra
          hb hfb hothers hfirst
        rw [hs']
        exact ⟨s', by simp [hr], hj'⟩

/-- A pass of the runner in which the body of the READY record at `i` makes the
record at an index `j <= i` READY: the calls are those of a pass with quiet
bodies over the table as it was, and the record at `j` ends READY. -/
theorem runner_forward_earlier (fa fb : TaskFunctionPtr) (i j : Nat) (hji : j ≤ i) :
    ∀ (fuel k : Nat) (s : Tasker) (a b : Task), 256 ≤ fuel + k → k ≤ i →
      i < s.numberof_tasks → s.numberof_tasks ≤ s.task_array.length →
      s.task_array[i]? = some a → a.run = fa → a.state = READY →
      s.task_array[j]? = some b → b.run = fb →
      (∀ m t, m < s.numberof_tasks → m ≠ i → s.task_array[m]? = some t → t.run ≠ fa) →
      (∀ m t, m < j → s.task_array[m]? = some t → t.run ≠ fb) →
      ∃ s', tsk_task_runner_loop (ready_setting_body fa fb) fuel k s =
          .ok (s', (((s.task_array.take s.numberof_tasks).drop k).filter
            (fun t => t.state = READY)).map Task.run) ∧
        s'.task_array[j]? = some ⟨b.run, b.period, b.counter, READY⟩ := by
  intro fuel
  induction fuel with
  | zero =>
    intro k s a b h1 h2 h3
    have := s.numberof_tasks_lt
    omega
  | succ fuel ih =>
    intro k s a b hfuel hki hi hcap ha hfa hra hb hfb hothers hfirst
    have hn := s.numberof_tasks_lt
    by_cases hk : k = i
    · subst hk
      rw [runner_loop_at_caller fa fb fuel k j s a b hcap hi (by omega) ha hfa hra hb hfb
        hothers hfirst]
      obtain ⟨s', hs', _, _, hj'⟩ := tsk_task_runner_loop_quiet_spec fuel (k + 1)
        { s with task_array :=
          ((s.task_array.set k ⟨a.run, a.period, a.counter, RUNNABLE⟩).set j
            ⟨b.run, b.period, b.counter, READY⟩) }
        (by omega) (by show k + 1 ≤ s.numberof_tasks; omega) (by simpa using hcap)
      rw [hs']
      refine ⟨s', ?_, ?_⟩
      · rw [calls_from_cons _ k s.numberof_tasks a hi ha]
        simp only [hra, if_true, List.singleton_append]
        rw [drop_take_set_le _ j k _ hji, drop_take_set]
      · rw [hj' j]
        have hlen : j < (s.task_array.set k ⟨a.run, a.period, a.counter, RUNNABLE⟩).length := by
          rw [List.length_set]; omega
        have hcond : ¬ (k + 1 ≤ j ∧ j < s.numberof_tasks) := by omega
        simp only [hcond, if_false]
        rw [List.getElem?_set, if_pos rfl, if_pos hlen]
    · have hklt : k < s.numberof_tasks := by omega
      have hlen : k < s.task_array.length := by omega
      have hget : s.task_array[k]? = some s.task_array[k] := List.getElem?_eq_getElem hlen
      rw [calls_from_cons _ k s.numberof_tasks _ hklt hget]
      by_cases hr : s.task_array[k].state = READY
      · have hne : s.task_array[k].run ≠ fa := hothers k _ hklt hk hget
        rw [runner_loop_step_ready _ fuel k s _ hklt hget hr]
        simp only [ready_setting_body, hne, if_false]
        have hbj : ∃ bj, (s.task_array.set k ⟨s.task_array[k].run, s.task_array[k].period,
            s.task_array[k].counter, RUNNABLE⟩)[j]? = some bj ∧
            bj.run = b.run ∧ bj.period = b.period ∧ bj.counter = b.counter := by
          by_cases hjk : j = k
          · subst hjk
            rw [hget] at hb
            cases hb
            exact ⟨_, getElem?_set_self_of_some _ hget, rfl, rfl, rfl⟩
          · exact ⟨b, by rw [List.getElem?_set_ne (fun h => hjk h.symm), hb], rfl, rfl, rfl⟩
        obtain ⟨bj, hbj1, hbj2, hbj3, hbj4⟩ := hbj
        obtain ⟨s', hs', hj'⟩ := ih (k + 1)
          { s with task_array := (s.task_array.set k
            ⟨s.task_array[k].run, s.task_array[k].period, s.task_array[k].counter, RUNNABLE⟩) }
          a bj (by omega) (by omega) hi (by simpa using hcap)
          (by rw [List.getElem?_set_ne (by omega), ha]) hfa hra
          hbj1 (hbj2.trans hfb)
          (fun m t hm hmi hmt => by
            by_cases hmk : m = k
            · subst hmk
              simp only [getElem?_set_self_of_some _ hget] at hmt
              cases hmt
              exact hne
            · simp only [List.getElem?_set_ne (fun h => hmk h.symm)] at hmt
              exact hothers m t hm hmi hmt)
          (fun m t hm hmt => by
            by_cases hmk : m = k
            · subst hmk
              simp only [getElem?_set_self_of_some _ hget] at hmt
              cases hmt
              exact hfirst m s.task_array[m] hm hget
            · simp only [List.getElem?_set_ne (fun h => hmk h.symm)] at hmt
              exact hfirst m t hm hmt)
        simp only [drop_take_set] at hs'
        rw [hs']
        rw [hbj2, hbj3, hbj4] at hj'
        exact ⟨s', by simp [hr], hj'⟩
      · rw [runner_loop_step_skip _ fuel k s _ hklt hget hr]
        obtain ⟨s', hs', hj'⟩ := ih (k + 1) s a b (by omega) (by omega) hi hcap ha hfa hra
          hb hfb hothers hfirst
        rw [hs']
        exact ⟨s', by simp [hr], hj'⟩

/-- In a table whose registered functions are pairwise distinct, records at
different registered indices have different functions. -/
theorem distinct_runs (s : Tasker) (hcap : s.numberof_tasks ≤ s.task_array.length)
    (hdistinct : ((registered s).map Task.run).Nodup) (m1 m2 : Nat) (t1 t2 : Task)
    (hne : m1 ≠ m2) (h1 : m1 < s.numberof_tasks) (h2 : m2 < s.numberof_tasks)
    (ht1 : s.task_array[m1]? = some t1) (ht2 : s.task_array[m2]? = some t2) :
    t1.run ≠ t2.run := by
  have hlen : ((registered s).map Task.run).length = s.numberof_tasks := by
    simp [registered, List.length_take]; omega
  have hget : ∀ m t, m < s.numberof_tasks → s.task_array[m]? = some t →
      ((registered s).map Task.run)[m]? = some t.run := by
    intro m t hm ht
    simp [registered, List.getElem?_take_of_lt hm, ht]
  have key := List.nodup_iff_getElem?_ne_getElem?.mp hdistinct
  intro heq
  rcases Nat.lt_or_gt_of_ne hne with hlt | hgt
  · apply key m1 m2 hlt (by omega)
    rw [hget m1 t1 h1 ht1, hget m2 t2 h2 ht2, heq]
  · apply key m2 m1 hgt (by omega)
    rw [hget m1 t1 h1 ht1, hget m2 t2 h2 ht2, heq]

/-- C17: one pass of `tsk_task_runner` over a table with pairwise distinct
registered functions, in which the body of the READY record `a` at index `i`
calls `tsk_set_task_state(b.run, READY)` for the record `b` at index `j` and
every other body leaves the table alone.  The pass returns.  When `j > i` the
function of `b` is called in the same pass, after that of `a`, and `b` ends
RUNNABLE.  When `j <= i` (`b` may be `a` itself) the calls are those the table
had READY when the pass began, so `b` is not called again, and `b` is READY
when the pass returns. -/
theorem C17_runner_is_a_single_forward_pass (s : Tasker) (i j : Nat) (a b : Task)
    (hcap : s.numberof_tasks ≤ NUMBER_OF_TASKS s)
    (hdistinct : ((registered s).map Task.run).Nodup)
    (hi : i < s.numberof_tasks) (hj : j < s.numberof_tasks)
    (ha : s.task_array[i]? = some a) (hb : s.task_array[j]? = some b)
    (hra : a.state = READY) :
    (i < j → ∃ s' calls,
      tsk_task_runner (ready_setting_body a.run b.run) s = .ok (s', calls) ∧
      List.Sublist [a.run, b.run] calls ∧
      s'.task_array[j]? = some ⟨b.run, b.period, b.counter, RUNNABLE⟩) ∧
    (j ≤ i → ∃ s' calls,
      tsk_task_runner (ready_setting_body a.run b.run) s = .ok (s', calls) ∧
      calls = ready_calls s ∧ calls.count b.run ≤ 1 ∧
      s'.task_array[j]? = some ⟨b.run, b.period, b.counter, READY⟩) := by
  simp only [NUMBER_OF_TASKS] at hcap
  have hothers : ∀ m t, m < s.numberof_tasks → m ≠ i → s.task_array[m]? = some t →
      t.run ≠ a.run :=
    fun m t hm hmi hmt => distinct_runs s hcap hdistinct m i t a hmi hm hi hmt ha
  have hfirst : ∀ m t, m < j → s.task_array[m]? = some t → t.run ≠ b.run :=
    fun m t hm hmt =>
      distinct_runs s hcap hdistinct m j t b (by omega) (by omega) hj hmt hb
  constructor
  · intro hij
    obtain ⟨s', h1, h2⟩ := runner_forward_later a.run b.run i j hij 256 0 s a b
      (by omega) (by omega) hj hcap ha rfl hra hb rfl hothers hfirst
    refine ⟨s', _, h1, ?_, h2⟩
    have hlenj : j < s.task_array.length := by omega
    have ha' : ((s.task_array.set j ⟨b.run, b.period, b.counter, READY⟩).take
        s.numberof_tasks)[i]? = some a := by
      rw [List.getElem?_take_of_lt hi, List.getElem?_set_ne (by omega), ha]
    have hb' : ((s.task_array.set j ⟨b.run, b.period, b.counter, READY⟩).take
        s.numberof_tasks)[j]? = some ⟨b.run, b.period, b.counter, READY⟩ := by
      rw [List.getElem?_take_of_lt hj, List.getElem?_set, if_pos rfl, if_pos hlenj]
    have hsub := pair_sublist _ i j a _ hij ha' hb'
    have hfil := hsub.filter (fun t => decide (t.state = READY))
    have hmap := hfil.map Task.run
    simpa [hra] using hmap
  · intro hji
    obtain ⟨s', h1, h2⟩ := runner_forward_earlier a.run b.run i j hji 256 0 s a b
      (by omega) (by omega) hi hcap ha rfl hra hb rfl hothers hfirst
    refine ⟨s', ready_calls s, ?_, rfl, ?_, h2⟩
    · simpa [tsk_task_runner, ready_calls, registered] using h1
    · have hsub : List.Sublist (ready_calls s) ((registered s).map Task.run) :=
        (List.filter_sublist _).map Task.run
      exact le_trans (hsub.count_le b.run)
        (List.nodup_iff_count_le_one.mp hdistinct b.run)

/-- C17 at `trio_table`, whose READY record at index 1 makes the record at
index 2, and then the record at index 0, READY. -/
theorem C17_runner_is_a_single_forward_pass_witness :
    (trio_table.numberof_tasks ≤ NUMBER_OF_TASKS trio_table ∧
      ((registered trio_table).map Task.run).Nodup ∧
      trio_table.task_array[1]? = some ⟨2, 1, 1, READY⟩ ∧
      trio_table.task_array[2]? = some ⟨3, 5, 2, RUNNABLE⟩ ∧
      trio_table.task_array[0]? = some ⟨1, 3, 1, RUNNABLE⟩) ∧
    (∃ s' calls, tsk_task_runner (ready_setting_body 2 3) trio_table = .ok (s', calls) ∧
      List.Sublist [2, 3] calls ∧ s'.task_array[2]? = some ⟨3, 5, 2, RUNNABLE⟩) ∧
    ∃ s' calls, tsk_task_runner (ready_setting_body 2 1) trio_table = .ok (s', calls) ∧
      calls = ready_calls trio_table ∧ calls.count 1 ≤ 1 ∧
      s'.task_array[0]? = some ⟨1, 3, 1, READY⟩ :=
  ⟨⟨by decide, by decide, by decide, by decide, by decide⟩,
    (C17_runner_is_a_single_forward_pass trio_table 1 2 ⟨2, 1, 1, READY⟩ ⟨3, 5, 2, RUNNABLE⟩
      (by decide) (by decide) (by decide) (by decide) (by decide) (by decide) rfl).1
      (by decide),
    (C17_runner_is_a_single_forward_pass trio_table 1 0 ⟨2, 1, 1, READY⟩ ⟨1, 3, 1, RUNNABLE⟩
      (by decide) (by decide) (by decide) (by decide) (by decide) (by decide) rfl).2
      (by decide)⟩

/-- Three passes over `trio_table` evaluated: the body of the function 2 makes
the record at index 2, at index 0 and at its own index READY. -/
theorem runner_forward_pass_on_trio_table :
    tsk_task_runner (ready_setting_body 2 3) trio_table =
      .ok (⟨[⟨1, 3, 1, RUNNABLE⟩, ⟨2, 1, 1, RUNNABLE⟩, ⟨3, 5, 2, RUNNABLE⟩], 3, by decide⟩,
        [2, 3]) ∧
    tsk_task_runner (ready_setting_body 2 1) trio_table =
      .ok (⟨[⟨1, 3, 1, READY⟩, ⟨2, 1, 1, RUNNABLE⟩, ⟨3, 5, 2, RUNNABLE⟩], 3, by decide⟩,
        [2]) ∧
    tsk_task_runner (ready_setting_body 2 2) trio_table =
      .ok (⟨[⟨1, 3, 1, RUNNABLE⟩, ⟨2, 1, 1, READY⟩, ⟨3, 5, 2, RUNNABLE⟩], 3, by decide⟩,
        [2]) := by
  decide

/-! ## First match wins -/

/-- C18: `get_task_index(f)` returns; its result `r` is the least index below
`numberof_tasks` whose record has the function `f`, and it is `numberof_tasks`
exactly when no registered record has `f`.  When a second record, at a later
index `j`, has the same function: the getters return the fields of the record
at `r`, the setters return and leave the slot `j` as it was, while
`tsk_task_time_manager` maps both records and `tsk_task_runner` (bodies that
leave the table alone) dispatches both, calling `f` twice when both are
READY. -/
theorem C18_lookup_is_first_match (w : Nat) (s : Tasker) (f : TaskFunctionPtr)
    (hcap : s.numberof_tasks ≤ NUMBER_OF_TASKS s) :
    ∃ r, get_task_index s f = .ok r ∧ r ≤ s.numberof_tasks ∧
      (∀ m t, m < r → s.task_array[m]? = some t → t.run ≠ f) ∧
      (r < s.numberof_tasks → ∃ t, s.task_array[r]? = some t ∧ t.run = f) ∧
      (r = s.numberof_tasks ↔ ∀ t ∈ registered s, t.run ≠ f) ∧
      ∀ j a b, r < j → j < s.numberof_tasks → s.task_array[r]? = some a →
        s.task_array[j]? = some b → b.run = f →
        (tsk_get_task_state s f = .ok a.state ∧ tsk_get_task_period s f = .ok a.period ∧
          tsk_get_task_counter s f = .ok a.counter) ∧
        (∀ st, ∃ s', tsk_set_task_state s f st = .ok s' ∧ s'.task_array[j]? = some b) ∧
        (∀ v, ∃ s', tsk_set_task_period s f v = .ok s' ∧ s'.task_array[j]? = some b) ∧
        (∀ v, ∃ s', tsk_set_task_counter s f v = .ok s' ∧ s'.task_array[j]? = some b) ∧
        (∃ s', tsk_task_time_manager w s = .ok s' ∧
          s'.task_array[r]? = some (tick_record w a) ∧
          s'.task_array[j]? = some (tick_record w b)) ∧
        ∃ s' calls, tsk_task_runner quiet_body s = .ok (s', calls) ∧
          s'.task_array[r]? = some (dispatch_record a) ∧
          s'.task_array[j]? = some (dispatch_record b) ∧
          (a.state = READY → b.state = READY → List.Sublist [f, f] calls) := by
  simp only [NUMBER_OF_TASKS] at hcap
  obtain ⟨r, h1, h2, h3, h4⟩ := get_task_index_spec s f hcap
  refine ⟨r, h1, h2, h3, h4, ⟨fun hr t ht hf => ?_, fun hnot => ?_⟩,
    fun j a b hrj hj ha hb hbf => ?_⟩
  · obtain ⟨m, hm, hget⟩ := exists_of_mem_registered ht
    exact h3 m t (by omega) hget hf
  · by_contra hne
    obtain ⟨t, ht, hf⟩ := h4 (by omega)
    exact hnot t (mem_registered (by omega) ht) hf
  · have hset : ∀ x : Task,
        ({ s with task_array := s.task_array.set r x } : Tasker).task_array[j]? = some b := by
      intro x
      show (s.task_array.set r x)[j]? = some b
      rw [List.getElem?_set_ne (by omega), hb]
    obtain ⟨s1, k1, _, _, k4⟩ := tsk_task_time_manager_spec w s hcap
    obtain ⟨s2, q1, _, _, q4⟩ := tsk_task_runner_quiet_spec s hcap
    obtain ⟨a0, ha0, haf⟩ := h4 (by omega)
    rw [ha] at ha0
    cases ha0
    refine ⟨⟨tsk_get_task_state_spec h1 ha, tsk_get_task_period_spec h1 ha,
        tsk_get_task_counter_spec h1 ha⟩,
      fun st => ⟨_, tsk_set_task_state_spec h1 ha st, hset _⟩,
      fun v => ⟨_, tsk_set_task_period_spec h1 ha v, hset _⟩,
      fun v => ⟨_, tsk_set_task_counter_spec h1 ha v, hset _⟩,
      ⟨s1, k1, ?_, ?_⟩, ⟨s2, _, q1, ?_, ?_, fun hra hrb => ?_⟩⟩
    · rw [k4 r, if_pos (by omega), ha]; rfl
    · rw [k4 j, if_pos hj, hb]; rfl
    · rw [q4 r, if_pos (by omega), ha]; rfl
    · rw [q4 j, if_pos hj, hb]; rfl
    · have ha' : (registered s)[r]? = some a := by
        simp only [registered]
        rw [List.getElem?_take_of_lt (by omega), ha]
      have hb' : (registered s)[j]? = some b := by
        simp only [registered]
        rw [List.getElem?_take_of_lt hj, hb]
      have hsub := pair_sublist (registered s) r j a b hrj ha' hb'
      have hfil := hsub.filter (fun t => decide (t.state = READY))
      have hmap := hfil.map Task.run
      simpa [ready_calls, hra, hrb, haf, hbf] using hmap

/-- C18 at `twin_table`, where the function 1 is registered at the indices 0
and 1. -/
theorem C18_lookup_is_first_match_witness :
    twin_table.numberof_tasks ≤ NUMBER_OF_TASKS twin_table ∧
    ∃ r, get_task_index twin_table 1 = .ok r ∧ r ≤ twin_table.numberof_tasks ∧
      (r < twin_table.numberof_tasks →
        ∃ t, twin_table.task_array[r]? = some t ∧ t.run = 1) :=
  ⟨by decide,
    (C18_lookup_is_first_match 8 twin_table 1 (by decide)).imp
      fun _ h => ⟨h.1, h.2.1, h.2.2.2.1⟩⟩

/-- The calls of C18 evaluated on `twin_table`: the lookup finds index 0, a
setter changes the record there only, a tick maps both records and the runner
calls the function 1 twice. -/
theorem accessors_and_passes_on_twin_table :
    get_task_index twin_table 1 = .ok 0 ∧
    tsk_get_task_period twin_table 1 = .ok 3 ∧
    tsk_set_task_counter twin_table 1 9 =
      .ok ⟨[⟨1, 3, 9, READY⟩, ⟨1, 2, 2, READY⟩, ⟨0, 0, 0, RUNNABLE⟩], 2, by decide⟩ ∧
    tsk_task_time_manager 8 twin_table =
      .ok ⟨[⟨1, 3, 2, READY⟩, ⟨1, 2, 1, READY⟩, ⟨0, 0, 0, RUNNABLE⟩], 2, by decide⟩ ∧
    tsk_task_runner quiet_body twin_table =
      .ok (⟨[⟨1, 3, 1, RUNNABLE⟩, ⟨1, 2, 2, RUNNABLE⟩, ⟨0, 0, 0, RUNNABLE⟩], 2, by decide⟩,
        [1, 1]) := by
  decide

/-! ## A period of zero, and the increment of the counter -/

theorem tick_record_zero_period (w : Nat) (t : Task) (hp : t.period = 0)
    (hs : t.state ≠ PAUSED) : tick_record w t = ⟨t.run, 0, 1, READY⟩ := by
  simp [tick_record, hs, hp]

theorem tick_record_iterate_zero_period (w : Nat) (t : Task) (hp : t.period = 0)
    (hs : t.state ≠ PAUSED) :
    ∀ n, 1 ≤ n → (tick_record w)^[n] t = ⟨t.run, 0, 1, READY⟩ := by
  intro n
  induction n with
  | zero => intro h; omega
  | succ n ih =>
    intro _
    rw [Function.iterate_succ_apply']
    by_cases hn : n = 0
    · subst hn
      exact tick_record_zero_period w t hp hs
    · rw [ih (by omega)]
      exact tick_record_zero_period w _ rfl (by simp)

/-- C19: a registered record with period 0 that is not PAUSED, whatever its
counter: after any number `n >= 1` of calls of `tsk_task_time_manager` it is
READY with counter 1; and a tick, a pass of the runner (bodies that leave the
table alone), which calls its function and leaves it RUNNABLE, and the next
tick leave it READY again.  A period of 0 is stored without a test by
`tsk_task_create` and by `tsk_set_task_period`. -/
theorem C19_zero_period_is_ready_at_every_tick (w : Nat) (s : Tasker) (i : Nat) (t : Task)
    (hcap : s.numberof_tasks ≤ NUMBER_OF_TASKS s) (hi : i < s.numberof_tasks)
    (ht : s.task_array[i]? = some t) (hp : t.period = 0) (hs : t.state ≠ PAUSED) :
    (∀ n, 1 ≤ n → ∃ s', ticks w n s = .ok s' ∧
      s'.task_array[i]? = some ⟨t.run, 0, 1, READY⟩) ∧
    (∃ s1 s2 calls s3, tsk_task_time_manager w s = .ok s1 ∧
      s1.task_array[i]? = some ⟨t.run, 0, 1, READY⟩ ∧
      tsk_task_runner quiet_body s1 = .ok (s2, calls) ∧ t.run ∈ calls ∧
      s2.task_array[i]? = some ⟨t.run, 0, 1, RUNNABLE⟩ ∧
      tsk_task_time_manager w s2 = .ok s3 ∧
      s3.task_array[i]? = some ⟨t.run, 0, 1, READY⟩) ∧
    (∀ f st, s.numberof_tasks < NUMBER_OF_TASKS s →
      ∃ s', tsk_task_create s f st 0 = .ok s' ∧
        s'.task_array[s.numberof_tasks]? = some ⟨f, 0, 1, st⟩) ∧
    (∀ f, (∃ u ∈ registered s, u.run = f) →
      ∃ s', tsk_set_task_period s f 0 = .ok s' ∧ tsk_get_task_period s' f = .ok 0) := by
  simp only [NUMBER_OF_TASKS] at hcap ⊢
  refine ⟨fun n hn => ?_, ?_, fun f st hroom => ?_, fun f hreg => ?_⟩
  · obtain ⟨s', h1, _, _, h4⟩ := ticks_spec w n s hcap
    refine ⟨s', h1, ?_⟩
    rw [h4 i, if_pos hi, ht, Option.map_some', tick_record_iterate_zero_period w t hp hs n hn]
  · obtain ⟨s1, h1, h2, h3, h4⟩ := tsk_task_time_manager_spec w s hcap
    have hrec1 : s1.task_array[i]? = some ⟨t.run, 0, 1, READY⟩ := by
      rw [h4 i, if_pos hi, ht, Option.map_some', tick_record_zero_period w t hp hs]
    obtain ⟨s2, q1, q2, q3, q4⟩ := tsk_task_runner_quiet_spec s1 (by omega)
    have hrec2 : s2.task_array[i]? = some ⟨t.run, 0, 1, RUNNABLE⟩ := by
      rw [q4 i, if_pos (by omega), hrec1]
      simp [dispatch_record]
    obtain ⟨s3, k1, _, _, k4⟩ := tsk_task_time_manager_spec w s2 (by omega)
    have hrec3 : s3.task_array[i]? = some ⟨t.run, 0, 1, READY⟩ := by
      rw [k4 i, if_pos (by omega), hrec2, Option.map_some',
        tick_record_zero_period w _ rfl (by simp)]
    refine ⟨s1, s2, ready_calls s1, s3, h1, hrec1, q1, ?_, hrec2, k1, hrec3⟩
    refine List.mem_map.mpr ⟨⟨t.run, 0, 1, READY⟩, ?_, rfl⟩
    exact List.mem_filter.mpr ⟨mem_registered (by omega) hrec1, by simp⟩
  · obtain ⟨s', h1, h2, _⟩ := tsk_task_create_spec s f st 0 hroom
    refine ⟨s', h1, ?_⟩
    rw [h2]
    exact getElem?_set_self_of_some _ (List.getElem?_eq_getElem hroom)
  · obtain ⟨r, u, hidx, _, hu, _, _⟩ := get_task_index_of_registered s f hcap hreg
    obtain ⟨k1, k2, _⟩ := slot_update_facts ⟨u.run, 0, u.counter, u.state⟩ hidx hu rfl
    exact ⟨_, tsk_set_task_period_spec hidx hu 0, tsk_get_task_period_spec k1 k2⟩

/-- C20: `check_task_counter_and_handle_state` on a slot whose period is a
value of the `w`-bit time type returns; it increments the counter only when
`counter < period`, and then the new counter is `counter + 1` itself, which is
at most the period and below `2 ^ w`: the reduction modulo `2 ^ w` changes
nothing.  Otherwise the counter becomes 1 and the state READY. -/
theorem C20_counter_increment_never_wraps (w : Nat) (s : Tasker) (i : Nat) (t : Task)
    (ht : s.task_array[i]? = some t) (hw : t.period < 2 ^ w) :
    ∃ s' t', check_task_counter_and_handle_state w s i = .ok s' ∧
      s'.task_array[i]? = some t' ∧
      (t.counter ≥ t.period → t'.counter = 1 ∧ t'.state = READY) ∧
      (t.counter < t.period →
        t'.counter = t.counter + 1 ∧ (t.counter + 1) % 2 ^ w = t.counter + 1 ∧
        t'.counter ≤ t.period ∧ t'.counter < 2 ^ w ∧ t'.state = t.state) := by
  by_cases hc : t.counter ≥ t.period
  · have hrun : check_task_counter_and_handle_state w s i =
        .ok { s with task_array := s.task_array.set i ⟨t.run, t.period, 1, READY⟩ } := by
      unfold check_task_counter_and_handle_state
      simp only [load_of_getElem? ht, bind, Except.bind, hc, if_true]
      rw [store_of_getElem? _ ht]
      simp only
      rw [store_of_getElem? _ (getElem?_set_self_of_some _ ht)]
      simp
    exact ⟨_, _, hrun, getElem?_set_self_of_some _ ht, fun _ => ⟨rfl, rfl⟩,
      fun h => by omega⟩
  · have hmod : (t.counter + 1) % 2 ^ w = t.counter + 1 := Nat.mod_eq_of_lt (by omega)
    have hrun : check_task_counter_and_handle_state w s i =
        .ok { s with task_array :=
          (s.task_array.set i ⟨t.run, t.period, t.counter + 1, t.state⟩) } := by
      unfold check_task_counter_and_handle_state
      simp only [load_of_getElem? ht, bind, Except.bind, hc, if_false]
      rw [store_of_getElem? _ ht, hmod]
    exact ⟨_, _, hrun, getElem?_set_self_of_some _ ht, fun h => absurd h hc,
      fun _ => ⟨rfl, hmod, by show t.counter + 1 ≤ t.period; omega,
        by show t.counter + 1 < 2 ^ w; omega, rfl⟩⟩

/-- C19 at a table whose first record has period 0. -/
theorem C19_zero_period_is_ready_at_every_tick_witness :
    (zero_period_table.numberof_tasks ≤ NUMBER_OF_TASKS zero_period_table ∧
      zero_period_table.task_array[0]? = some ⟨1, 0, 5, RUNNABLE⟩) ∧
    ∀ n, 1 ≤ n → ∃ s', ticks 8 n zero_period_table = .ok s' ∧
      s'.task_array[0]? = some ⟨1, 0, 1, READY⟩ :=
  ⟨⟨by decide, by decide⟩,
    (C19_zero_period_is_ready_at_every_tick 8 zero_period_table 0 ⟨1, 0, 5, RUNNABLE⟩
      (by decide) (by decide) (by decide) rfl (by decide)).1⟩

/-- C20 at the first slot of `sample_table`: counter 1, period 3, 8 bits. -/
theorem C20_counter_increment_never_wraps_witness :
    (sample_table.task_array[0]? = some ⟨1, 3, 1, RUNNABLE⟩ ∧ 3 < 2 ^ 8) ∧
    ∃ s' t', check_task_counter_and_handle_state 8 sample_table 0 = .ok s' ∧
      s'.task_array[0]? = some t' ∧ t'.counter = 2 :=
  ⟨⟨by decide, by decide⟩, by
    obtain ⟨s', t', h1, h2, _, h4⟩ :=
      C20_counter_increment_never_wraps 8 sample_table 0 ⟨1, 3, 1, RUNNABLE⟩
        (by decide) (by decide)
    exact ⟨s', t', h1, h2, (h4 (by decide)).1⟩⟩

end Scheduler
